import Mathlib

/-!
Verification of the Arkemy reporting engine (aggregation, planned-vs-actual
variance, forecast accumulation, weekly capacity) against its specification.

The Python sources (pandas dataframes of time records) are shallowly embedded:
dataframes become lists of structures, numeric columns become `ℚ`, optional
columns become schema flags, and pandas' float semantics for division by zero
(NaN / ±inf, which the guarded computations avoid via boolean masks) are made
explicit through the small `PdVal` algebra below.  Group order produced by
`groupby` is modelled as first-occurrence order; none of the verified
properties depend on row order except where chronological sorting is part of
the claim, in which case the sort is modelled explicitly.
-/

namespace Arkemy

/-- Round a rational to the nearest integer, ties to even: the rounding mode
used by `numpy`/`pandas.DataFrame.round`. -/
def roundHalfEven (q : ℚ) : ℤ :=
  let f := ⌊q⌋
  if q * 2 < (f : ℚ) * 2 + 1 then f
  else if ((f : ℚ) * 2 + 1) < q * 2 then f + 1
  else if f % 2 = 0 then f else f + 1

/-- `Series.round(2)` on a finite value. -/
def round2 (q : ℚ) : ℚ := (roundHalfEven (q * 100) : ℚ) / 100

/-- `Series.round(1)` on a finite value. -/
def round1 (q : ℚ) : ℚ := (roundHalfEven (q * 10) : ℚ) / 10

/-- A pandas float cell: finite, NaN, or a signed infinity.  Unguarded
division by zero produces the non-finite values; `fillna` maps NaN back to a
finite default. -/
inductive PdVal where
  | fin (q : ℚ)
  | nan
  | inf
  | ninf
deriving DecidableEq, Repr

namespace PdVal

/-- Float division as pandas performs it (`a / b` with `b` possibly 0). -/
def div (a : PdVal) (b : PdVal) : PdVal :=
  match a, b with
  | nan, _ | _, nan => nan
  | fin a, fin b =>
      if b = 0 then (if a = 0 then nan else if 0 < a then inf else ninf)
      else fin (a / b)
  | inf, fin b => if b < 0 then ninf else inf
  | ninf, fin b => if b < 0 then inf else ninf
  | fin _, inf | fin _, ninf => fin 0
  | inf, inf | inf, ninf | ninf, inf | ninf, ninf => nan

/-- Float subtraction. -/
def sub (a : PdVal) (b : PdVal) : PdVal :=
  match a, b with
  | nan, _ | _, nan => nan
  | fin a, fin b => fin (a - b)
  | inf, fin _ => inf
  | ninf, fin _ => ninf
  | fin _, inf => ninf
  | fin _, ninf => inf
  | inf, inf | ninf, ninf => nan
  | inf, ninf => inf
  | ninf, inf => ninf

/-- Multiplication by a finite scalar (used for `* 100`). -/
def scale (v : PdVal) (c : ℚ) : PdVal :=
  match v with
  | fin q => fin (q * c)
  | nan => nan
  | inf => if 0 < c then inf else if c = 0 then nan else ninf
  | ninf => if 0 < c then ninf else if c = 0 then nan else inf

/-- `Series.round(2)`: non-finite values pass through. -/
def round2v : PdVal → PdVal
  | fin q => fin (round2 q)
  | v => v

/-- `Series.round(1)`: non-finite values pass through. -/
def round1v : PdVal → PdVal
  | fin q => fin (round1 q)
  | v => v

/-- `Series.fillna d`: NaN becomes `d`, everything else is kept. -/
def fillna (v : PdVal) (d : ℚ) : PdVal :=
  match v with
  | nan => fin d
  | v => v

/-- The boolean mask `v > 0` as pandas evaluates it (`NaN > 0` is `False`). -/
def gtZero : PdVal → Bool
  | fin q => decide (0 < q)
  | inf => true
  | _ => false

/-- The finite part of a value, when it is finite. -/
def finPart : PdVal → Option ℚ
  | fin q => some q
  | _ => none

end PdVal

/-- `(billable / worked * 100).round(2)` — the Billability % formula exactly
as written in the aggregators, with no division guard. -/
def billabilityPctOf (billable worked : ℚ) : PdVal :=
  (((PdVal.fin billable).div (PdVal.fin worked)).scale 100).round2v

/-- Auxiliary for `uniqueKeys`: keep the keys not seen yet. -/
def uniqueAux {κ : Type} [DecidableEq κ] : List κ → List κ → List κ
  | [], _ => []
  | k :: ks, seen =>
      if k ∈ seen then uniqueAux ks seen else k :: uniqueAux ks (k :: seen)

/-- First-occurrence list of the distinct keys of a list (the set of group
keys of a `groupby`). -/
def uniqueKeys {κ : Type} [DecidableEq κ] (l : List κ) : List κ :=
  uniqueAux l []

/-- Number of distinct values of `f` over `l` (a `nunique` aggregate). -/
def nunique {α κ : Type} [DecidableEq κ] (f : α → κ) (l : List α) : ℕ :=
  (uniqueKeys (l.map f)).length

/-- Which optional financial source columns the record set carries
(`"Fee per time record"`, `"Hourly rate"`, `"Cost per time record"`,
`"Profit per time record"` membership in `df.columns`). -/
structure FinSchema where
  hasFee : Bool
  hasRate : Bool
  hasCost : Bool
  hasProfit : Bool
deriving DecidableEq, Repr

/-- One time record, with the columns used by the dimensional aggregators.
Optional columns are present as fields; the `FinSchema` says which of them
exist in the dataframe. -/
structure TimeRec where
  customer : ℕ
  customerName : String
  project : ℕ
  person : String
  hoursWorked : ℚ
  billableHours : ℚ
  hourlyRate : ℚ
  fee : ℚ
  cost : ℚ
  profit : ℚ
deriving DecidableEq, Repr

/-- Revenue of the records selected by `p`, per the tiered fallback:
sum of fees if the fee column exists, else Σ (billable × hourly rate) if the
rate column exists, else 0. -/
def revenueOf (s : FinSchema) (recs : List TimeRec) (p : TimeRec → Bool) : ℚ :=
  if s.hasFee then ((recs.filter p).map (·.fee)).sum
  else if s.hasRate then
    ((recs.filter p).map (fun r => r.billableHours * r.hourlyRate)).sum
  else 0

/-- `Total cost` of the records selected by `p` (0 when the column is absent). -/
def costOf (s : FinSchema) (recs : List TimeRec) (p : TimeRec → Bool) : ℚ :=
  if s.hasCost then ((recs.filter p).map (·.cost)).sum else 0

/-- `Total profit` of the records selected by `p` (0 when the column is absent). -/
def profitOf (s : FinSchema) (recs : List TimeRec) (p : TimeRec → Bool) : ℚ :=
  if s.hasProfit then ((recs.filter p).map (·.profit)).sum else 0

/-- One output row of `aggregate_by_customer`. -/
structure CustomerRow where
  customer : ℕ
  customerName : String
  hoursWorked : ℚ
  billableHours : ℚ
  numProjects : ℕ
  nonBillable : ℚ
  billabilityPct : PdVal
  revenue : ℚ
  totalCost : ℚ
  totalProfit : ℚ
  billableRate : ℚ
  effectiveRate : ℚ
  profitMarginPct : ℚ
deriving DecidableEq, Repr

/-- `processors.aggregate_by_customer`: group by (Customer number, Customer
name); sums, nunique projects, derived columns; the financial merges are keyed
on Customer number alone; the rate and margin computations use `> 0` masks
with default 0, while Billability % is an unguarded division. -/
def aggregate_by_customer (s : FinSchema) (recs : List TimeRec) : List CustomerRow :=
  (uniqueKeys (recs.map (fun r => (r.customer, r.customerName)))).map (fun k =>
    let grp := recs.filter (fun r => r.customer = k.1 ∧ r.customerName = k.2)
    let worked := (grp.map (·.hoursWorked)).sum
    let billable := (grp.map (·.billableHours)).sum
    let rev := revenueOf s recs (fun r => r.customer = k.1)
    let cost := costOf s recs (fun r => r.customer = k.1)
    let profit := profitOf s recs (fun r => r.customer = k.1)
    { customer := k.1
      customerName := k.2
      hoursWorked := worked
      billableHours := billable
      numProjects := nunique (·.project) grp
      nonBillable := worked - billable
      billabilityPct := billabilityPctOf billable worked
      revenue := rev
      totalCost := cost
      totalProfit := profit
      billableRate := if 0 < billable then rev / billable else 0
      effectiveRate := if 0 < worked then rev / worked else 0
      profitMarginPct := if 0 < rev then round2 (profit / rev * 100) else 0 })

/-- One output row of `aggregate_by_person`. -/
structure PersonRow where
  person : String
  hoursWorked : ℚ
  billableHours : ℚ
  numProjects : ℕ
  nonBillable : ℚ
  billabilityPct : PdVal
  revenue : ℚ
  totalCost : ℚ
  totalProfit : ℚ
  billableRate : ℚ
  effectiveRate : ℚ
  profitMarginPct : ℚ
deriving DecidableEq, Repr

/-- `processors.aggregate_by_person`: same computation keyed on Person. -/
def aggregate_by_person (s : FinSchema) (recs : List TimeRec) : List PersonRow :=
  (uniqueKeys (recs.map (·.person))).map (fun p =>
    let grp := recs.filter (fun r => r.person = p)
    let worked := (grp.map (·.hoursWorked)).sum
    let billable := (grp.map (·.billableHours)).sum
    let rev := revenueOf s recs (fun r => r.person = p)
    let cost := costOf s recs (fun r => r.person = p)
    let profit := profitOf s recs (fun r => r.person = p)
    { person := p
      hoursWorked := worked
      billableHours := billable
      numProjects := nunique (·.project) grp
      nonBillable := worked - billable
      billabilityPct := billabilityPctOf billable worked
      revenue := rev
      totalCost := cost
      totalProfit := profit
      billableRate := if 0 < billable then rev / billable else 0
      effectiveRate := if 0 < worked then rev / worked else 0
      profitMarginPct := if 0 < rev then round2 (profit / rev * 100) else 0 })

/-! ### Planned-hours aggregation and the planned-vs-actual merger
(`planned_processors.py`) -/

/-- One planned-hours record (a row of the planned dataframe). -/
structure PlannedRec where
  projectNumber : ℕ
  projectName : String
  person : String
  year : ℕ
  month : ℕ
  plannedHours : ℚ
  plannedRate : ℚ
deriving DecidableEq, Repr

/-- One output row of `aggregate_by_project_planned`. -/
structure PlannedProjRow where
  projectNumber : ℕ
  projectName : String
  plannedHours : ℚ
  numPeople : ℕ
  plannedRate : ℚ
  plannedRevenue : ℚ
deriving DecidableEq, Repr

/-- The duration-weighted planned rate of the records selected by `p`:
`Σ(planned_rate × planned_hours) / Σ(planned_hours)`, 0 when the denominator
is 0 (the `mask` / default-0 pattern of the source). -/
def weightedPlannedRate (ps : List PlannedRec) (p : PlannedRec → Bool) : ℚ :=
  let grp := ps.filter p
  let hours := (grp.map (·.plannedHours)).sum
  if 0 < hours then
    ((grp.map (fun r => r.plannedRate * r.plannedHours)).sum) / hours
  else 0

/-- `planned_processors.aggregate_by_project_planned`: group planned records
by (Project number, Project); the weighted rate is aggregated per Project
number alone and merged back; planned revenue = planned hours × planned rate.
`hasRate` says whether the `"Planned rate"` column exists. -/
def aggregate_by_project_planned (hasRate : Bool) (ps : List PlannedRec) :
    List PlannedProjRow :=
  (uniqueKeys (ps.map (fun r => (r.projectNumber, r.projectName)))).map (fun k =>
    let grp := ps.filter (fun r => r.projectNumber = k.1 ∧ r.projectName = k.2)
    let hours := (grp.map (·.plannedHours)).sum
    let rate := if hasRate then weightedPlannedRate ps (fun r => r.projectNumber = k.1) else 0
    { projectNumber := k.1
      projectName := k.2
      plannedHours := hours
      numPeople := nunique (·.person) grp
      plannedRate := rate
      plannedRevenue := if hasRate then hours * rate else 0 })

/-- One actual project-aggregate row, as fed into the merger (the relevant
columns of an `aggregate_by_project` output enriched with financials). -/
structure ActualProjRow where
  projectNumber : ℕ
  projectName : String
  hoursWorked : ℚ
  billableHours : ℚ
  nonBillable : ℚ
  billabilityPct : PdVal
  numPeople : ℕ
  revenue : ℚ
  effectiveRate : ℚ
deriving DecidableEq, Repr

/-- One row of the merged actual/planned project table.  Columns that the
outer merge leaves NaN for rows coming only from the other side (and that the
source does not `fillna`) are `Option`-valued: `none` is a NaN cell of an
existing column; a `none` in `plannedRate`/`plannedRevenue`-dependent columns
means the column itself is absent from the planned dataframe. -/
structure MergedProjRow where
  projectNumber : ℕ
  projectName : String
  hoursWorked : ℚ
  billableHours : ℚ
  revenue : ℚ
  nonBillable : Option ℚ
  billabilityPct : PdVal
  numPeople : Option ℕ
  effectiveRate : PdVal
  plannedHours : ℚ
  plannedRate : Option ℚ
  plannedRevenue : Option ℚ
  hoursVariance : ℚ
  variancePct : ℚ
  rateVariance : Option ℚ
  rateVariancePct : Option ℚ
  revenueVariance : Option ℚ
  revenueVariancePct : Option ℚ
deriving DecidableEq, Repr

/-- Variance columns appended after the outer merge (lines 117–150 of
`planned_processors.py`), computed row-wise from the already-filled cells. -/
def finishMergedRow (hasPR hasPRev : Bool) (row : MergedProjRow) : MergedProjRow :=
  let effFilled := if hasPR then row.effectiveRate.fillna 0 else row.effectiveRate
  -- after the fillna the effective-rate cell is always finite on the
  -- reachable inputs (an aggregate's rate or a filled NaN)
  let effQ := (effFilled.finPart).getD 0
  let pr := if hasPR then some ((row.plannedRate).getD 0) else none
  let hv := row.hoursWorked - row.plannedHours
  let vp := if 0 < row.plannedHours then round2 (hv / row.plannedHours * 100) else 0
  let rv := if hasPR then some (effQ - (row.plannedRate).getD 0) else none
  let rvp := if hasPR then
      some (if 0 < (row.plannedRate).getD 0
            then round2 ((effQ - (row.plannedRate).getD 0) / (row.plannedRate).getD 0 * 100)
            else 0)
    else none
  let prevQ := (row.plannedRevenue).getD 0
  let revv := if hasPRev then some (row.revenue - prevQ) else none
  let revvp := if hasPRev then
      some (if 0 < prevQ then round2 ((row.revenue - prevQ) / prevQ * 100) else 0)
    else none
  { row with
    effectiveRate := effFilled
    plannedRate := pr
    hoursVariance := hv
    variancePct := vp
    rateVariance := rv
    rateVariancePct := rvp
    revenueVariance := revv
    revenueVariancePct := revvp }

/-- An actual row with a matching planned row (inner part of the outer merge),
before the variance columns. -/
def mergeBoth (hasPR hasPRev : Bool) (a : ActualProjRow) (p : PlannedProjRow) :
    MergedProjRow :=
  { projectNumber := a.projectNumber
    projectName := a.projectName
    hoursWorked := a.hoursWorked
    billableHours := a.billableHours
    revenue := a.revenue
    nonBillable := some a.nonBillable
    billabilityPct := a.billabilityPct
    numPeople := some a.numPeople
    effectiveRate := .fin a.effectiveRate
    plannedHours := p.plannedHours
    plannedRate := if hasPR then some p.plannedRate else none
    plannedRevenue := if hasPRev then some p.plannedRevenue else none
    hoursVariance := 0
    variancePct := 0
    rateVariance := none
    rateVariancePct := none
    revenueVariance := none
    revenueVariancePct := none }

/-- An actual row with no planned counterpart: the planned numeric columns in
the `fillna` list become 0 (`Planned rate` is filled later, modelled in
`finishMergedRow`). -/
def mergeActualOnly (_hasPR hasPRev : Bool) (a : ActualProjRow) : MergedProjRow :=
  { projectNumber := a.projectNumber
    projectName := a.projectName
    hoursWorked := a.hoursWorked
    billableHours := a.billableHours
    revenue := a.revenue
    nonBillable := some a.nonBillable
    billabilityPct := a.billabilityPct
    numPeople := some a.numPeople
    effectiveRate := .fin a.effectiveRate
    plannedHours := 0
    plannedRate := none
    plannedRevenue := if hasPRev then some 0 else none
    hoursVariance := 0
    variancePct := 0
    rateVariance := none
    rateVariancePct := none
    revenueVariance := none
    revenueVariancePct := none }

/-- A planned row with no actual counterpart: the actual numeric columns in
the `fillna` list become 0; `Non-billable hours`, `Billability %`,
`Number of people` and `Effective rate` stay NaN (the last one is filled
in `finishMergedRow` when the planned-rate column exists). -/
def mergePlannedOnly (hasPR hasPRev : Bool) (p : PlannedProjRow) : MergedProjRow :=
  { projectNumber := p.projectNumber
    projectName := p.projectName
    hoursWorked := 0
    billableHours := 0
    revenue := 0
    nonBillable := none
    billabilityPct := .nan
    numPeople := none
    effectiveRate := .nan
    plannedHours := p.plannedHours
    plannedRate := if hasPR then some p.plannedRate else none
    plannedRevenue := if hasPRev then some p.plannedRevenue else none
    hoursVariance := 0
    variancePct := 0
    rateVariance := none
    rateVariancePct := none
    revenueVariance := none
    revenueVariancePct := none }

/-- The outer merge on (Project number, Project): every actual row paired with
each matching planned row (or alone, zero-filled, if none matches), followed
by the planned rows with no actual counterpart. -/
def outerMergeProjects (hasPR hasPRev : Bool) (as : List ActualProjRow)
    (ps : List PlannedProjRow) : List MergedProjRow :=
  let keyEq := fun (a : ActualProjRow) (p : PlannedProjRow) =>
    p.projectNumber = a.projectNumber ∧ p.projectName = a.projectName
  ((as.flatMap (fun a =>
      let ms := ps.filter (fun p => keyEq a p)
      if ms.isEmpty then [mergeActualOnly hasPR hasPRev a]
      else ms.map (fun p => mergeBoth hasPR hasPRev a p)))
    ++ ((ps.filter (fun p => ¬ as.any (fun a => keyEq a p))).map
        (fun p => mergePlannedOnly hasPR hasPRev p))).map
    (finishMergedRow hasPR hasPRev)

/-- The result of `merge_actual_planned_projects`, whose early returns hand
back one of the input dataframes unchanged (a `None` input is `none`). -/
inductive MergeOut where
  | plannedOut (p : Option (List PlannedProjRow))
  | actualOut (a : List ActualProjRow)
  | mergedOut (m : List MergedProjRow)
deriving DecidableEq, Repr

/-- `planned_processors.merge_actual_planned_projects`: if the actual input is
`None` or empty return the planned input as given; else if the planned input
is `None` or empty return the actual input; else outer-merge and add variance
columns.  `hasPR`/`hasPRev` record whether the planned dataframe carries the
`"Planned rate"` / `"Planned revenue"` columns. -/
def merge_actual_planned_projects (hasPR hasPRev : Bool)
    (actual : Option (List ActualProjRow)) (planned : Option (List PlannedProjRow)) :
    MergeOut :=
  match actual with
  | none => .plannedOut planned
  | some as =>
    if as = [] then .plannedOut planned
    else
      match planned with
      | none => .actualOut as
      | some ps =>
        if ps = [] then .actualOut as
        else .mergedOut (outerMergeProjects hasPR hasPRev as ps)

/-! ### Temporal aggregation with planned data
(`processors.aggregate_project_by_month_year`) -/

/-- One time record as seen by the temporal aggregation, already annotated
with its calendar bucket (`Date.dt.year` / `Date.dt.month`). -/
structure TimeRecM where
  year : ℕ
  month : ℕ
  person : String
  hoursWorked : ℚ
  billableHours : ℚ
  hourlyRate : ℚ
  fee : ℚ
  cost : ℚ
  profit : ℚ
deriving DecidableEq, Repr

/-- `'YYYY-MM'` sortable key: `str(year) + '-' + str(month).zfill(2)`. -/
def dateString (y m : ℕ) : String :=
  toString y ++ "-" ++ (if m < 10 then "0" ++ toString m else toString m)

/-- One row of the per-month planned aggregate (`planned_month_year`); the
rate and revenue columns exist only when the planned data has a rate. -/
structure PMYRow where
  year : ℕ
  month : ℕ
  plannedHours : ℚ
  plannedRate : Option ℚ
  plannedRevenue : Option ℚ
deriving DecidableEq, Repr

/-- Planned hours per (Year, Month) bucket, with the duration-weighted
planned rate (`Σ(rate × hours) / Σ(hours)` per bucket, 0 on zero hours) and
planned revenue = planned hours × planned rate when the rate column exists. -/
def plannedMonthYear (hasPR : Bool) (ps : List PlannedRec) : List PMYRow :=
  (uniqueKeys (ps.map (fun p => (p.year, p.month)))).map (fun k =>
    let grp := ps.filter (fun p => p.year = k.1 ∧ p.month = k.2)
    let hours := (grp.map (·.plannedHours)).sum
    let rate := weightedPlannedRate ps (fun p => p.year = k.1 ∧ p.month = k.2)
    { year := k.1
      month := k.2
      plannedHours := hours
      plannedRate := if hasPR then some rate else none
      plannedRevenue := if hasPR then some (hours * rate) else none })

/-- Revenue of a (Year, Month) bucket of the actual records, with the
fee-column / rate-column / zero fallback. -/
def monthRevenueOf (s : FinSchema) (recs : List TimeRecM) (y m : ℕ) : ℚ :=
  if s.hasFee then
    ((recs.filter (fun r => r.year = y ∧ r.month = m)).map (·.fee)).sum
  else if s.hasRate then
    ((recs.filter (fun r => r.year = y ∧ r.month = m)).map
      (fun r => r.billableHours * r.hourlyRate)).sum
  else 0

/-- Cost of a (Year, Month) bucket (0 when the column is absent). -/
def monthCostOf (s : FinSchema) (recs : List TimeRecM) (y m : ℕ) : ℚ :=
  if s.hasCost then
    ((recs.filter (fun r => r.year = y ∧ r.month = m)).map (·.cost)).sum
  else 0

/-- Profit of a (Year, Month) bucket (0 when the column is absent). -/
def monthProfitOf (s : FinSchema) (recs : List TimeRecM) (y m : ℕ) : ℚ :=
  if s.hasProfit then
    ((recs.filter (fun r => r.year = y ∧ r.month = m)).map (·.profit)).sum
  else 0

/-- The base month/year aggregate of the actual records (sums, nunique
people, derived columns; Billability % is again an unguarded division). -/
structure MYBase where
  year : ℕ
  month : ℕ
  hoursWorked : ℚ
  billableHours : ℚ
  numPeople : ℕ
  nonBillable : ℚ
  billabilityPct : PdVal
deriving DecidableEq, Repr

/-- Lines 1158–1167: group the actual records by (Year, Month). -/
def actualMonthBase (recs : List TimeRecM) : List MYBase :=
  (uniqueKeys (recs.map (fun r => (r.year, r.month)))).map (fun k =>
    let grp := recs.filter (fun r => r.year = k.1 ∧ r.month = k.2)
    let worked := (grp.map (·.hoursWorked)).sum
    let billable := (grp.map (·.billableHours)).sum
    { year := k.1
      month := k.2
      hoursWorked := worked
      billableHours := billable
      numPeople := nunique (·.person) grp
      nonBillable := worked - billable
      billabilityPct := billabilityPctOf billable worked })

/-- One output row of `aggregate_project_by_month_year`.  `Option`-typed
columns are absent (`none`) on code paths that never create them; `PdVal`
columns can hold NaN. -/
structure MYRow where
  year : ℕ
  month : ℕ
  hoursWorked : ℚ
  billableHours : ℚ
  numPeople : ℚ
  nonBillable : ℚ
  billabilityPct : PdVal
  plannedHours : Option ℚ
  plannedRate : Option ℚ
  plannedRevenue : Option PdVal
  hoursVariance : Option ℚ
  variancePct : Option ℚ
  revenue : ℚ
  billableRate : ℚ
  effectiveRate : ℚ
  rateVariance : Option ℚ
  rateVariancePct : Option ℚ
  revenueVariance : Option PdVal
  revenueVariancePct : Option PdVal
  totalCost : Option ℚ
  totalProfit : Option ℚ
  profitMarginPct : Option ℚ
deriving DecidableEq, Repr

/-- Chronological order on output rows: the source sorts by the string
column `'Date string'`. -/
def myLE (a b : MYRow) : Prop :=
  dateString a.year a.month ≤ dateString b.year b.month

instance : DecidableRel myLE := fun a b => by unfold myLE; infer_instance

instance : IsTotal MYRow myLE := ⟨fun _ _ => le_total _ _⟩

instance : IsTrans MYRow myLE := ⟨fun _ _ _ hab hbc => le_trans hab hbc⟩

/-- Line 1411: `sort_values('Date string')`. -/
def mySort (rows : List MYRow) : List MYRow := List.insertionSort myLE rows

/-- The no-planned-data path: base aggregate, revenue with fallback, masked
Billable/Effective rates, cost, profit, guarded margin. -/
def myRowNoPlanned (s : FinSchema) (recs : List TimeRecM) (b : MYBase) : MYRow :=
  let rev := monthRevenueOf s recs b.year b.month
  let cost := monthCostOf s recs b.year b.month
  let profit := monthProfitOf s recs b.year b.month
  { year := b.year
    month := b.month
    hoursWorked := b.hoursWorked
    billableHours := b.billableHours
    numPeople := (b.numPeople : ℚ)
    nonBillable := b.nonBillable
    billabilityPct := b.billabilityPct
    plannedHours := none
    plannedRate := none
    plannedRevenue := none
    hoursVariance := none
    variancePct := none
    revenue := rev
    billableRate := if 0 < b.billableHours then rev / b.billableHours else 0
    effectiveRate := if 0 < b.hoursWorked then rev / b.hoursWorked else 0
    rateVariance := none
    rateVariancePct := none
    revenueVariance := none
    revenueVariancePct := none
    totalCost := some cost
    totalProfit := some profit
    profitMarginPct := some (if 0 < rev then round2 (profit / rev * 100) else 0) }

/-- Merged-path row finisher: given the filled actual cells and the planned
cells of one row, compute variances, revenue, rates, cost, profit and margin
exactly as lines 1269–1336 and 1348–1408 do.  `ph` is the filled
`Planned hours`; `pr`/`prev` are the planned rate/revenue cells (`prev` can
be NaN for actual-only rows, which the source never fills). -/
def myRowMerged (s : FinSchema) (hasPR : Bool) (recs : List TimeRecM)
    (year month : ℕ) (worked billable numPeople nonBillable : ℚ)
    (billability : PdVal) (ph : ℚ) (pr : Option ℚ) (prev : Option PdVal) : MYRow :=
  let hv := worked - ph
  let vp := if 0 < ph then round2 (hv / ph * 100) else 0
  let rev := monthRevenueOf s recs year month
  let eff :=
    if hasPR then (if 0 < billable then round2 (rev / billable) else 0)
    else (if 0 < worked then rev / worked else 0)
  let br :=
    if hasPR then 0
    else (if 0 < billable then rev / billable else 0)
  let rv := if hasPR then some (eff - pr.getD 0) else none
  let rvp := if hasPR then
      some (if 0 < pr.getD 0 then round2 ((eff - pr.getD 0) / pr.getD 0 * 100) else 0)
    else none
  let prv := prev.getD .nan
  let revv := if hasPR then some ((PdVal.fin rev).sub prv) else none
  let revvp := if hasPR then
      some (if prv.gtZero then ((((PdVal.fin rev).sub prv).div prv).scale 100).round2v
            else .fin 0)
    else none
  let cost := monthCostOf s recs year month
  let profit := monthProfitOf s recs year month
  { year := year
    month := month
    hoursWorked := worked
    billableHours := billable
    numPeople := numPeople
    nonBillable := nonBillable
    billabilityPct := billability
    plannedHours := some ph
    plannedRate := if hasPR then some (pr.getD 0) else none
    plannedRevenue := prev
    hoursVariance := some hv
    variancePct := some vp
    revenue := rev
    billableRate := br
    effectiveRate := eff
    rateVariance := rv
    rateVariancePct := rvp
    revenueVariance := revv
    revenueVariancePct := revvp
    totalCost := some cost
    totalProfit := some profit
    profitMarginPct := some (if 0 < rev then round2 (profit / rev * 100) else 0) }

/-- The merged path (actual and planned both nonempty): outer merge of the
base aggregate with the per-month planned aggregate on (Year, Month), with
the source's `fillna(0)` on the actual columns, `Planned hours` and (when
present) `Planned rate`; `Planned revenue` is never filled and stays NaN on
actual-only rows. -/
def myMerged (s : FinSchema) (hasPR : Bool) (recs : List TimeRecM)
    (ps : List PlannedRec) : List MYRow :=
  let base := actualMonthBase recs
  let pmy := plannedMonthYear hasPR ps
  (base.map (fun b =>
    match pmy.find? (fun q => q.year = b.year ∧ q.month = b.month) with
    | some q =>
        myRowMerged s hasPR recs b.year b.month b.hoursWorked b.billableHours
          (b.numPeople : ℚ) b.nonBillable (b.billabilityPct.fillna 0)
          q.plannedHours
          (if hasPR then some (q.plannedRate.getD 0) else none)
          (if hasPR then some (.fin (q.plannedRevenue.getD 0)) else none)
    | none =>
        myRowMerged s hasPR recs b.year b.month b.hoursWorked b.billableHours
          (b.numPeople : ℚ) b.nonBillable (b.billabilityPct.fillna 0)
          0
          (if hasPR then some 0 else none)
          (if hasPR then some .nan else none)))
  ++ ((pmy.filter (fun q =>
        ¬ base.any (fun b => q.year = b.year ∧ q.month = b.month))).map (fun q =>
      myRowMerged s hasPR recs q.year q.month 0 0 0 0 (.fin 0)
        q.plannedHours
        (if hasPR then some (q.plannedRate.getD 0) else none)
        (if hasPR then some (.fin (q.plannedRevenue.getD 0)) else none)))

/-- The planned-only path (no actual rows after filtering, lines 1243–1251
and 1337–1346): actual columns are constant 0, rate/revenue variances are
−100 % below plan, cost/profit/margin columns are never created. -/
def myRowPlannedOnly (hasPR : Bool) (q : PMYRow) : MYRow :=
  let ph := q.plannedHours
  let pr := q.plannedRate.getD 0
  let prev := q.plannedRevenue.getD 0
  { year := q.year
    month := q.month
    hoursWorked := 0
    billableHours := 0
    numPeople := 0
    nonBillable := 0
    billabilityPct := .fin 0
    plannedHours := some ph
    plannedRate := if hasPR then some pr else none
    plannedRevenue := if hasPR then some (.fin prev) else none
    hoursVariance := some (0 - ph)
    variancePct := some (if 0 < ph then round2 ((0 - ph) / ph * 100) else 0)
    revenue := 0
    billableRate := 0
    effectiveRate := 0
    rateVariance := if hasPR then some (0 - pr) else none
    rateVariancePct := if hasPR then some (-100) else none
    revenueVariance := if hasPR then some (.fin (0 - prev)) else none
    revenueVariancePct := if hasPR then some (.fin (-100)) else none
    totalCost := none
    totalProfit := none
    profitMarginPct := none }

/-- `processors.aggregate_project_by_month_year` with no project filter and
no date filter: dispatch on emptiness of the two inputs, then sort
chronologically by the `'Date string'` key. -/
def aggregate_project_by_month_year (s : FinSchema) (hasPR : Bool)
    (actual : List TimeRecM) (planned : Option (List PlannedRec)) : List MYRow :=
  match planned with
  | none =>
      if actual = [] then []
      else mySort ((actualMonthBase actual).map (myRowNoPlanned s actual))
  | some ps =>
      if ps = [] then
        (if actual = [] then []
         else mySort ((actualMonthBase actual).map (myRowNoPlanned s actual)))
      else if actual = [] then
        mySort ((plannedMonthYear hasPR ps).map (myRowPlannedOnly hasPR))
      else mySort (myMerged s hasPR actual ps)

/-! ### Forecast accumulation (`chart_helpers.create_forecast_chart`) -/

/-- One row of the monthly series handed to the forecast chart: actual and
planned hours per (Year, Month) bucket. -/
structure MonthSeriesRow where
  year : ℕ
  month : ℕ
  monthName : String
  hoursWorked : ℚ
  plannedHours : ℚ
deriving DecidableEq, Repr

/-- One row of the forecast dataframe returned alongside the figure. -/
structure ForecastRow where
  year : ℕ
  month : ℕ
  monthName : String
  hoursWorked : ℚ
  plannedHours : ℚ
  timePeriod : String
  monthValue : ℚ
  accumulated : ℚ
deriving DecidableEq, Repr

/-- `(year, month)` strictly before the current calendar month. -/
def beforeMonth (curYear curMonth y m : ℕ) : Prop :=
  y < curYear ∨ (y = curYear ∧ m < curMonth)

instance (cy cm y m : ℕ) : Decidable (beforeMonth cy cm y m) := by
  unfold beforeMonth; infer_instance

/-- A month row decorated with its `Time Period` label and `Month Value`
(lines 304–316). -/
structure DecoratedRow where
  base : MonthSeriesRow
  timePeriod : String
  monthValue : ℚ
deriving DecidableEq, Repr

/-- The temporal switch: label `"Actual"` and take `Hours worked` for months
strictly before the current one, else label `"Planned"` and take
`Planned hours`. -/
def decorateRow (curYear curMonth : ℕ) (r : MonthSeriesRow) : DecoratedRow :=
  let tp := if beforeMonth curYear curMonth r.year r.month then "Actual" else "Planned"
  { base := r
    timePeriod := tp
    monthValue := if tp = "Actual" then r.hoursWorked else r.plannedHours }

/-- Chronological order used by `sort_values(["Year", "Month"])`. -/
def chronoLE (a b : DecoratedRow) : Prop :=
  a.base.year < b.base.year ∨ (a.base.year = b.base.year ∧ a.base.month ≤ b.base.month)

instance : DecidableRel chronoLE := fun a b => by unfold chronoLE; infer_instance

instance : IsTotal DecoratedRow chronoLE := by
  constructor
  intro a b
  unfold chronoLE
  rcases Nat.lt_trichotomy a.base.year b.base.year with h | h | h
  · exact Or.inl (Or.inl h)
  · rcases Nat.le_total a.base.month b.base.month with hm | hm
    · exact Or.inl (Or.inr ⟨h, hm⟩)
    · exact Or.inr (Or.inr ⟨h.symm, hm⟩)
  · exact Or.inr (Or.inl h)

instance : IsTrans DecoratedRow chronoLE := by
  constructor
  intro a b c hab hbc
  unfold chronoLE at *
  rcases hab with h1 | ⟨h1, h1m⟩ <;> rcases hbc with h2 | ⟨h2, h2m⟩
  · exact Or.inl (h1.trans h2)
  · exact Or.inl (h2 ▸ h1)
  · exact Or.inl (h1 ▸ h2)
  · exact Or.inr ⟨h1.trans h2, h1m.trans h2m⟩

/-- The running `cumsum` over the sorted decorated rows (line 322). -/
def accumulate (acc : ℚ) : List DecoratedRow → List ForecastRow
  | [] => []
  | d :: rest =>
      { year := d.base.year
        month := d.base.month
        monthName := d.base.monthName
        hoursWorked := d.base.hoursWorked
        plannedHours := d.base.plannedHours
        timePeriod := d.timePeriod
        monthValue := d.monthValue
        accumulated := acc + d.monthValue } :: accumulate (acc + d.monthValue) rest

/-- `chart_helpers.create_forecast_chart` (the returned `forecast_df`): the
current date is obtained from `datetime.now()` inside the function — it is
modelled as an explicit clock argument `(curYear, curMonth, curDay)` bound to
the ambient wall clock at call time; only the year and month take part in the
computation. -/
def create_forecast_chart (curYear curMonth curDay : ℕ)
    (monthly : List MonthSeriesRow) : List ForecastRow :=
  let _ := curDay
  accumulate 0 (List.insertionSort chronoLE (monthly.map (decorateRow curYear curMonth)))

/-! ### Weekly capacity normalization
(`weekly_data_transformer.py`, `capacity_processors.py`) -/

/-- The capacity configuration: absence-type ids to include in / exclude from
capacity reduction, and the billable-target ratio. -/
structure CapacityConfig where
  includeIds : List String
  excludeIds : List String
  billableTarget : ℚ
deriving DecidableEq, Repr

/-- One raw weekly source row: person, period-start date, scheduled hours
(`"Total agreed hours"`) and the cells of the absence columns, addressed by
raw column name (`none` is an empty/NaN cell). -/
structure WeeklyRow where
  person : String
  date : ℕ
  scheduled : ℚ
  absVal : String → Option ℚ

/-- `str.startswith(p)`, computed on the character list. -/
def strStartsWith (s p : String) : Bool := s.data.take p.data.length = p.data

/-- `str.endswith(p)`, computed on the character list. -/
def strEndsWith (s p : String) : Bool :=
  s.data.drop (s.data.length - p.data.length) = p.data ∧ p.data.length ≤ s.data.length

/-- Drop the first `n` characters. -/
def strDrop (s : String) (n : ℕ) : String := ⟨s.data.drop n⟩

/-- Drop the last `n` characters. -/
def strDropRight (s : String) (n : ℕ) : String := ⟨s.data.take (s.data.length - n)⟩

/-- `extract_absence_id_from_column`: strip the `"Absence "` prefix and the
`" hours"` suffix. -/
def extract_absence_id_from_column (c : String) : Option String :=
  if ¬ strStartsWith c "Absence " then none
  else
    let middle := strDrop c 8
    let middle := if strEndsWith middle " hours" then strDropRight middle 6 else middle
    if middle = "" then none else some middle

/-- Lines 92–109 of `transform_weekly_to_absence`: accumulate
`absence_df[col].fillna(0)` over the absence columns, taking a column when
its id is in the include set, skipping it when the id is (only) in the
exclude set, and including it by default otherwise. -/
def includedAbsenceSum (cfg : CapacityConfig) (cols : List String) (r : WeeklyRow) : ℚ :=
  (cols.filter (fun c => strStartsWith c "Absence ")).foldl
    (fun acc c =>
      match extract_absence_id_from_column c with
      | none => acc
      | some id =>
          if id ∈ cfg.includeIds then acc + (r.absVal c).getD 0
          else if id ∈ cfg.excludeIds then acc
          else acc + (r.absVal c).getD 0)
    0

/-- One row of the ARKEMY schedule format. -/
structure ScheduleRow where
  date : ℕ
  person : String
  scheduledHours : ℚ
deriving DecidableEq, Repr

/-- One row of the ARKEMY absence format (the display label column is not
modelled). -/
structure AbsenceRow where
  date : ℕ
  person : String
  absenceHours : ℚ
deriving DecidableEq, Repr

/-- `transform_weekly_to_schedule`: carry over date, person and scheduled
hours (type coercions of the source are identities here). -/
def transform_weekly_to_schedule (w : List WeeklyRow) : List ScheduleRow :=
  match w with
  | [] => []
  | _ => w.map (fun r => { date := r.date, person := r.person, scheduledHours := r.scheduled })

/-- `transform_weekly_to_absence`: per row, the config-driven included
absence sum. -/
def transform_weekly_to_absence (cfg : CapacityConfig) (cols : List String)
    (w : List WeeklyRow) : List AbsenceRow :=
  match w with
  | [] => []
  | _ => w.map (fun r =>
      { date := r.date, person := r.person, absenceHours := includedAbsenceSum cfg cols r })

/-- One row of the capacity summary. -/
structure CapacityRow where
  date : ℕ
  person : String
  scheduledHours : ℚ
  absenceHours : ℚ
  availableCapacity : ℚ
  billableTarget : ℚ
  targetBillableHours : ℚ
deriving DecidableEq, Repr

/-- `create_capacity_summary`: left-merge absence onto schedule on
(Date, Person) with `fillna(0)`, then
`Available_Capacity = (Scheduled - Absence).clip(lower=0)` and
`Target_Billable_Hours = Available_Capacity × billable_target`. -/
def create_capacity_summary (sched : List ScheduleRow) (ab : List AbsenceRow)
    (cfg : CapacityConfig) : List CapacityRow :=
  if sched = [] then []
  else sched.map (fun srow =>
    let a :=
      if ab = [] then 0
      else (((ab.filter (fun b => b.date = srow.date ∧ b.person = srow.person)).head?).map
        (·.absenceHours)).getD 0
    let avail := max (srow.scheduledHours - a) 0
    { date := srow.date
      person := srow.person
      scheduledHours := srow.scheduledHours
      absenceHours := a
      availableCapacity := avail
      billableTarget := cfg.billableTarget
      targetBillableHours := avail * cfg.billableTarget })

/-- One input row of the person-level capacity aggregation
(`capacity_processors.calculate_person_capacity`). -/
structure CapSumRec where
  person : String
  date : ℕ
  scheduledHours : ℚ
  absenceHours : ℚ
deriving DecidableEq, Repr

/-- One output row of `calculate_person_capacity`. -/
structure PersonCapRow where
  person : String
  scheduledHours : ℚ
  absenceHours : ℚ
  periodStart : ℕ
  periodEnd : ℕ
  periodCount : ℕ
  availableCapacity : ℚ
  absenceRate : PdVal
  capacityUtilizationRate : PdVal
deriving DecidableEq, Repr

/-- `capacity_processors.calculate_person_capacity`: group by person, sum
scheduled and absence hours (the whole aggregate is passed through
`.round(2)`), then `Available_Capacity = Scheduled - Absence` with no floor,
and the two unguarded rate percentages rounded to one decimal. -/
def calculate_person_capacity (rows : List CapSumRec) : List PersonCapRow :=
  if rows = [] then []
  else (uniqueKeys (rows.map (·.person))).map (fun p =>
    let grp := rows.filter (fun r => r.person = p)
    let sched := round2 ((grp.map (·.scheduledHours)).sum)
    let ab := round2 ((grp.map (·.absenceHours)).sum)
    let avail := sched - ab
    { person := p
      scheduledHours := sched
      absenceHours := ab
      periodStart := ((grp.map (·.date)).min?).getD 0
      periodEnd := ((grp.map (·.date)).max?).getD 0
      periodCount := grp.length
      availableCapacity := avail
      absenceRate := (((PdVal.fin ab).div (PdVal.fin sched)).scale 100).round1v
      capacityUtilizationRate :=
        (((PdVal.fin avail).div (PdVal.fin sched)).scale 100).round1v })

/-! ### General lemmas about the embedding -/

theorem filter_map_comm {α β : Type} (l : List α) (f : α → β) (p : β → Bool) :
    (l.filter (fun x => p (f x))).map f = (l.map f).filter p := by
  induction l with
  | nil => simp
  | cons a l ih =>
      by_cases h : p (f a) <;> simp [List.filter_cons, h, ih]

theorem filter_key_length_le_one {α κ : Type} [DecidableEq κ] (f : α → κ) (l : List α)
    (k : κ) (h : (l.map f).Nodup) : (l.filter (fun x => f x = k)).length ≤ 1 := by
  induction l with
  | nil => simp
  | cons a l ih =>
      simp only [List.map_cons, List.nodup_cons] at h
      by_cases hk : f a = k
      · have hnil : l.filter (fun x => decide (f x = k)) = [] := by
          rw [List.filter_eq_nil_iff]
          intro x hx
          simp only [decide_eq_true_eq]
          intro hfx
          exact h.1 (by
            have : f x = f a := by rw [hfx, hk]
            exact this ▸ List.mem_map_of_mem f hx)
        simp [List.filter_cons, hk, hnil]
      · simpa [List.filter_cons, hk] using ih h.2

/-! ### C1 -/

/-- **C1** (claim: every dimensional aggregation computes
`Billability % = billable / worked * 100` with 0 substituted when hours
worked is 0, never NaN/Infinity).  The code violates this: in
`aggregate_by_customer` and `aggregate_by_person` the Billability % division
carries no zero guard, so a group whose hours worked sum to 0 gets NaN
(`0/0`), not 0. -/
theorem billability_nan_on_zero_hours_group :
    ((aggregate_by_customer ⟨false, false, false, false⟩
        [⟨1, "Acme", 7, "Ann", 0, 0, 0, 0, 0, 0⟩]).map (·.billabilityPct)
      = [PdVal.nan])
    ∧ ((aggregate_by_person ⟨false, false, false, false⟩
        [⟨1, "Acme", 7, "Ann", 0, 0, 0, 0, 0, 0⟩]).map (·.billabilityPct)
      = [PdVal.nan])
    ∧ PdVal.nan ≠ PdVal.fin 0 := by
  refine ⟨?_, ?_, by simp⟩ <;>
    norm_num [aggregate_by_customer, aggregate_by_person, uniqueKeys, uniqueAux,
      nunique, revenueOf, costOf, profitOf, billabilityPctOf, PdVal.div,
      PdVal.scale, PdVal.round2v, List.filter]

/-! ### C3 -/

/-- **C3**, counterexample: a record set with an hourly-rate column, no fee
column, but a per-record cost column.  Revenue comes from the rate tier, yet
`Total cost` is the summed cost column (30), not 0 as the claim demands —
the financial source columns are applied independently, not as exclusive
tiers. -/
theorem cost_summed_despite_rate_tier :
    ((aggregate_by_customer ⟨false, true, true, false⟩
        [⟨1, "Acme", 7, "Ann", 10, 5, 100, 0, 30, 0⟩]).map
          (fun r => (r.revenue, r.totalCost))) = [(500, 30)]
    ∧ (30 : ℚ) ≠ 0 := by
  constructor
  · norm_num [aggregate_by_customer, uniqueKeys, uniqueAux, nunique, revenueOf,
      costOf, profitOf, billabilityPctOf, PdVal.div, PdVal.scale, PdVal.round2v,
      List.filter]
  · norm_num

/-- **C3**, amended: when the record set has an hourly-rate column and no fee
column, each group's Revenue is Σ(billable hours × hourly rate) over the
records with that customer number; `Total cost` (resp. `Total profit`) is the
sum of the per-record cost (resp. profit) column when that column exists and
0 otherwise — independent of the revenue tier. -/
theorem rate_tier_revenue_and_independent_cost_profit (s : FinSchema)
    (recs : List TimeRec) (hFee : s.hasFee = false) (hRate : s.hasRate = true) :
    ∀ row ∈ aggregate_by_customer s recs,
      row.revenue = ((recs.filter (fun r => r.customer = row.customer)).map
          (fun r => r.billableHours * r.hourlyRate)).sum
      ∧ row.totalCost = (if s.hasCost then
          ((recs.filter (fun r => r.customer = row.customer)).map (·.cost)).sum
          else 0)
      ∧ row.totalProfit = (if s.hasProfit then
          ((recs.filter (fun r => r.customer = row.customer)).map (·.profit)).sum
          else 0) := by
  intro row hrow
  simp only [aggregate_by_customer, List.mem_map] at hrow
  obtain ⟨k, -, rfl⟩ := hrow
  refine ⟨?_, ?_, ?_⟩ <;> simp [revenueOf, costOf, profitOf, hFee, hRate]

/-- Witness for `rate_tier_revenue_and_independent_cost_profit` at a concrete
input. -/
theorem rate_tier_revenue_witness :
    ((⟨false, true, true, false⟩ : FinSchema).hasFee = false)
    ∧ ((⟨false, true, true, false⟩ : FinSchema).hasRate = true)
    ∧ ((⟨1, "Acme", 10, 5, 1, 5, .fin 50, 500, 30, 0, 100, 50, 0⟩ : CustomerRow)
        ∈ aggregate_by_customer ⟨false, true, true, false⟩
          [⟨1, "Acme", 7, "Ann", 10, 5, 100, 0, 30, 0⟩])
    ∧ ((⟨1, "Acme", 10, 5, 1, 5, .fin 50, 500, 30, 0, 100, 50, 0⟩ : CustomerRow).revenue
        = ((([⟨1, "Acme", 7, "Ann", 10, 5, 100, 0, 30, 0⟩] : List TimeRec).filter
            (fun r => r.customer
              = (⟨1, "Acme", 10, 5, 1, 5, .fin 50, 500, 30, 0, 100, 50, 0⟩ : CustomerRow).customer)).map
            (fun r => r.billableHours * r.hourlyRate)).sum) := by
  have hmem : (⟨1, "Acme", 10, 5, 1, 5, .fin 50, 500, 30, 0, 100, 50, 0⟩ : CustomerRow)
      ∈ aggregate_by_customer ⟨false, true, true, false⟩
        [⟨1, "Acme", 7, "Ann", 10, 5, 100, 0, 30, 0⟩] := by
    norm_num [aggregate_by_customer, uniqueKeys, uniqueAux, nunique, revenueOf,
      costOf, profitOf, billabilityPctOf, PdVal.div, PdVal.scale, PdVal.round2v,
      round2, roundHalfEven, List.filter]
  refine ⟨rfl, rfl, hmem, ?_⟩
  exact (rate_tier_revenue_and_independent_cost_profit _ _ rfl rfl _ hmem).1

/-! ### C9 -/

/-- **C9**, counterexample: with an empty actual aggregate and a `None`
planned aggregate, the function returns the planned argument (`None`), not
the empty actual dataframe, so the claim's symmetric clause ("if the planned
aggregate is None or empty the actual aggregate is returned unchanged")
fails when both guards apply. -/
theorem merge_both_empty_returns_planned :
    merge_actual_planned_projects false false (some []) none
      = .plannedOut none
    ∧ merge_actual_planned_projects false false (some []) none
      ≠ .actualOut ([] : List ActualProjRow) := by
  constructor
  · rfl
  · simp [merge_actual_planned_projects]

/-- **C9**, amended: if the actual aggregate is `None` or empty the planned
aggregate is returned exactly as given (no zero-filling, no variance
columns); otherwise, if the planned aggregate is `None` or empty, the actual
aggregate is returned unchanged. -/
theorem merge_passthrough_on_empty_inputs :
    (∀ hPR hPRev p, merge_actual_planned_projects hPR hPRev none p = .plannedOut p)
    ∧ (∀ hPR hPRev p,
        merge_actual_planned_projects hPR hPRev (some []) p = .plannedOut p)
    ∧ (∀ hPR hPRev as, as ≠ [] →
        merge_actual_planned_projects hPR hPRev (some as) none = .actualOut as)
    ∧ (∀ hPR hPRev as, as ≠ [] →
        merge_actual_planned_projects hPR hPRev (some as) (some []) = .actualOut as) := by
  refine ⟨fun _ _ _ => rfl, fun _ _ _ => rfl, ?_, ?_⟩ <;>
    · intro hPR hPRev as has
      simp [merge_actual_planned_projects, has]

/-- Witness for `merge_passthrough_on_empty_inputs` at a concrete nonempty
actual aggregate. -/
theorem merge_passthrough_witness :
    (([⟨1, "A", 4, 2, 2, .fin 50, 1, 0, 0⟩] : List ActualProjRow) ≠ [])
    ∧ merge_actual_planned_projects false false
        (some [⟨1, "A", 4, 2, 2, .fin 50, 1, 0, 0⟩]) none
        = .actualOut [⟨1, "A", 4, 2, 2, .fin 50, 1, 0, 0⟩] := by
  refine ⟨by simp, ?_⟩
  exact merge_passthrough_on_empty_inputs.2.2.1 false false _ (by simp)

/-! ### C10 -/

/-- **C10**: in `calculate_person_capacity` the available capacity is the
(rounded) scheduled sum minus the (rounded) absence sum with no floor, so a
person whose absence exceeds their schedule gets a negative value. -/
theorem person_capacity_no_floor (rows : List CapSumRec) :
    ∀ pr ∈ calculate_person_capacity rows,
      pr.scheduledHours
          = round2 (((rows.filter (fun x => x.person = pr.person)).map
              (·.scheduledHours)).sum)
      ∧ pr.absenceHours
          = round2 (((rows.filter (fun x => x.person = pr.person)).map
              (·.absenceHours)).sum)
      ∧ pr.availableCapacity = pr.scheduledHours - pr.absenceHours
      ∧ (pr.scheduledHours < pr.absenceHours → pr.availableCapacity < 0) := by
  intro pr hpr
  rw [calculate_person_capacity] at hpr
  by_cases hrows : rows = []
  · rw [if_pos hrows] at hpr
    exact absurd hpr (List.not_mem_nil pr)
  · rw [if_neg hrows, List.mem_map] at hpr
    obtain ⟨p, -, rfl⟩ := hpr
    refine ⟨rfl, rfl, rfl, fun h => ?_⟩
    simpa using sub_neg_of_lt h

/-- Witness for `person_capacity_no_floor`: one person scheduled 10 with 18
absence hours ends at available capacity −8 < 0. -/
theorem person_capacity_no_floor_witness :
    ((⟨"A", 10, 18, 3, 3, 1, -8, .fin 180, .fin (-80)⟩ : PersonCapRow)
        ∈ calculate_person_capacity [⟨"A", 3, 10, 18⟩])
    ∧ ((⟨"A", 10, 18, 3, 3, 1, -8, .fin 180, .fin (-80)⟩ : PersonCapRow).scheduledHours
          < (⟨"A", 10, 18, 3, 3, 1, -8, .fin 180, .fin (-80)⟩ : PersonCapRow).absenceHours
        → (⟨"A", 10, 18, 3, 3, 1, -8, .fin 180, .fin (-80)⟩ : PersonCapRow).availableCapacity < 0) := by
  have hmem : (⟨"A", 10, 18, 3, 3, 1, -8, .fin 180, .fin (-80)⟩ : PersonCapRow)
      ∈ calculate_person_capacity [⟨"A", 3, 10, 18⟩] := by
    norm_num [calculate_person_capacity, uniqueKeys, uniqueAux, round2,
      roundHalfEven, round1, PdVal.div, PdVal.scale, PdVal.round1v, List.filter]
  exact ⟨hmem, (person_capacity_no_floor [⟨"A", 3, 10, 18⟩] _ hmem).2.2.2⟩

/-! ### C7 -/

/-- **C7**, counterexample: `create_forecast_chart` takes no caller-supplied
reference date — it reads the clock inside the function.  Two runs on the
same monthly series at different ambient dates (July vs May 2025) produce
different output series, refuting "identical output regardless of when they
execute". -/
theorem forecast_depends_on_ambient_clock :
    create_forecast_chart 2025 7 1 [⟨2025, 6, "Jun", 10, 20⟩]
      ≠ create_forecast_chart 2025 5 1 [⟨2025, 6, "Jun", 10, 20⟩] := by
  norm_num [create_forecast_chart, accumulate, decorateRow, beforeMonth,
    List.insertionSort, List.orderedInsert, ForecastRow.mk.injEq]
  decide

/-- **C7**, amended: the Forecast Accumulator reads the current date from the
system clock inside the function; its output is a deterministic function of
the monthly series and the clock's (year, month) — the day of month is
ignored, and any two clock readings that classify every bucket the same way
(in particular, any two readings in the same calendar month) yield identical
output series. -/
theorem forecast_deterministic_given_clock_month :
    (∀ y m d d' (rows : List MonthSeriesRow),
        create_forecast_chart y m d rows = create_forecast_chart y m d' rows)
    ∧ (∀ y m d y' m' d' (rows : List MonthSeriesRow),
        (∀ r ∈ rows, beforeMonth y m r.year r.month ↔ beforeMonth y' m' r.year r.month) →
        create_forecast_chart y m d rows = create_forecast_chart y' m' d' rows) := by
  constructor
  · intro y m d d' rows
    rfl
  · intro y m d y' m' d' rows h
    unfold create_forecast_chart
    congr 1
    congr 1
    apply List.map_congr_left
    intro r hr
    unfold decorateRow
    have hiff := h r hr
    by_cases hb : beforeMonth y m r.year r.month
    · rw [if_pos hb, if_pos (hiff.mp hb)]
    · rw [if_neg hb, if_neg (fun hh => hb (hiff.mpr hh))]

/-- Witness for `forecast_deterministic_given_clock_month`: the July 2025 and
January 2026 clock readings classify the single June 2025 bucket
identically, so the two runs agree. -/
theorem forecast_deterministic_witness :
    (∀ r ∈ ([⟨2025, 6, "Jun", 10, 20⟩] : List MonthSeriesRow),
        beforeMonth 2025 7 r.year r.month ↔ beforeMonth 2026 1 r.year r.month)
    ∧ create_forecast_chart 2025 7 1 [⟨2025, 6, "Jun", 10, 20⟩]
        = create_forecast_chart 2026 1 5 [⟨2025, 6, "Jun", 10, 20⟩] := by
  have h : ∀ r ∈ ([⟨2025, 6, "Jun", 10, 20⟩] : List MonthSeriesRow),
      beforeMonth 2025 7 r.year r.month ↔ beforeMonth 2026 1 r.year r.month := by
    intro r hr
    simp only [List.mem_singleton] at hr
    subst hr
    decide
  exact ⟨h, forecast_deterministic_given_clock_month.2 2025 7 1 2026 1 5 _ h⟩

/-! ### C5 -/

/-- **C5**: the planned rate of a bucket — per project number in
`aggregate_by_project_planned`, per (Year, Month) in the temporal planned
aggregation — is the duration-weighted average
`Σ(planned_rate × planned_hours) / Σ(planned_hours)` over the bucket's
records, and 0 when the bucket's planned hours sum to 0. -/
theorem planned_rate_duration_weighted :
    (∀ ps : List PlannedRec, ∀ row ∈ aggregate_by_project_planned true ps,
        row.plannedRate
          = (if 0 < ((ps.filter (fun r => r.projectNumber = row.projectNumber)).map
                  (·.plannedHours)).sum
             then ((ps.filter (fun r => r.projectNumber = row.projectNumber)).map
                  (fun r => r.plannedRate * r.plannedHours)).sum
                / ((ps.filter (fun r => r.projectNumber = row.projectNumber)).map
                  (·.plannedHours)).sum
             else 0))
    ∧ (∀ ps : List PlannedRec, ∀ row ∈ plannedMonthYear true ps,
        row.plannedRate
          = some (if 0 < ((ps.filter (fun r => r.year = row.year ∧ r.month = row.month)).map
                  (·.plannedHours)).sum
             then ((ps.filter (fun r => r.year = row.year ∧ r.month = row.month)).map
                  (fun r => r.plannedRate * r.plannedHours)).sum
                / ((ps.filter (fun r => r.year = row.year ∧ r.month = row.month)).map
                  (·.plannedHours)).sum
             else 0)) := by
  constructor
  · intro ps row hrow
    simp only [aggregate_by_project_planned, List.mem_map] at hrow
    obtain ⟨k, -, rfl⟩ := hrow
    simp [weightedPlannedRate]
  · intro ps row hrow
    simp only [plannedMonthYear, List.mem_map] at hrow
    obtain ⟨k, -, rfl⟩ := hrow
    simp [weightedPlannedRate]

/-- Witness for `planned_rate_duration_weighted`: two persons on project 5 in
the same bucket, 10 h at rate 100 and 30 h at rate 200; the bucket rate is
the weighted 175, not the simple mean 150. -/
theorem planned_rate_weighted_witness :
    ((⟨5, "P", 40, 2, 175, 7000⟩ : PlannedProjRow)
        ∈ aggregate_by_project_planned true
          [⟨5, "P", "a", 2025, 1, 10, 100⟩, ⟨5, "P", "b", 2025, 1, 30, 200⟩])
    ∧ (⟨5, "P", 40, 2, 175, 7000⟩ : PlannedProjRow).plannedRate
        = (if 0 < ((([⟨5, "P", "a", 2025, 1, 10, 100⟩, ⟨5, "P", "b", 2025, 1, 30, 200⟩] :
                List PlannedRec).filter (fun r => r.projectNumber
                  = (⟨5, "P", 40, 2, 175, 7000⟩ : PlannedProjRow).projectNumber)).map
              (·.plannedHours)).sum
           then ((([⟨5, "P", "a", 2025, 1, 10, 100⟩, ⟨5, "P", "b", 2025, 1, 30, 200⟩] :
                List PlannedRec).filter (fun r => r.projectNumber
                  = (⟨5, "P", 40, 2, 175, 7000⟩ : PlannedProjRow).projectNumber)).map
              (fun r => r.plannedRate * r.plannedHours)).sum
              / ((([⟨5, "P", "a", 2025, 1, 10, 100⟩, ⟨5, "P", "b", 2025, 1, 30, 200⟩] :
                List PlannedRec).filter (fun r => r.projectNumber
                  = (⟨5, "P", 40, 2, 175, 7000⟩ : PlannedProjRow).projectNumber)).map
              (·.plannedHours)).sum
           else 0) := by
  have hmem : (⟨5, "P", 40, 2, 175, 7000⟩ : PlannedProjRow)
      ∈ aggregate_by_project_planned true
        [⟨5, "P", "a", 2025, 1, 10, 100⟩, ⟨5, "P", "b", 2025, 1, 30, 200⟩] := by
    norm_num [aggregate_by_project_planned, uniqueKeys, uniqueAux, nunique,
      weightedPlannedRate, List.filter]
    decide
  exact ⟨hmem, planned_rate_duration_weighted.1 _ _ hmem⟩

/-! ### C2 -/

theorem mem_mySort {row : MYRow} {l : List MYRow} : row ∈ mySort l ↔ row ∈ l :=
  (List.perm_insertionSort myLE l).mem_iff

/-- Every row of the merged temporal path is a `myRowMerged` instance. -/
theorem mem_myMerged {row : MYRow} {s : FinSchema} {hPR : Bool}
    {recs : List TimeRecM} {ps : List PlannedRec}
    (h : row ∈ myMerged s hPR recs ps) :
    ∃ y m w b np nb bil ph pr prev,
      row = myRowMerged s hPR recs y m w b np nb bil ph pr prev := by
  unfold myMerged at h
  rw [List.mem_append] at h
  rcases h with h | h
  · rw [List.mem_map] at h
    obtain ⟨base, -, rfl⟩ := h
    cases hfind : (plannedMonthYear hPR ps).find?
        (fun q => q.year = base.year ∧ q.month = base.month) with
    | none => exact ⟨_, _, _, _, _, _, _, _, _, _, rfl⟩
    | some q => exact ⟨_, _, _, _, _, _, _, _, _, _, rfl⟩
  · rw [List.mem_map] at h
    obtain ⟨q, -, rfl⟩ := h
    exact ⟨_, _, _, _, _, _, _, _, _, _, rfl⟩

/-- The effective rate a `myRowMerged` row carries, by planned-rate flag:
`round2(Revenue / Billable hours)` (masked) when the planned dataframe has a
rate column, `Revenue / Hours worked` (masked) otherwise. -/
theorem myRowMerged_effectiveRate (s : FinSchema) (hPR : Bool)
    (recs : List TimeRecM) (y m : ℕ) (w b np nb : ℚ) (bil : PdVal) (ph : ℚ)
    (pr : Option ℚ) (prev : Option PdVal) :
    (myRowMerged s hPR recs y m w b np nb bil ph pr prev).effectiveRate
      = if hPR
        then (if 0 < b then
            round2 ((myRowMerged s hPR recs y m w b np nb bil ph pr prev).revenue / b)
          else 0)
        else (if 0 < w then
            (myRowMerged s hPR recs y m w b np nb bil ph pr prev).revenue / w
          else 0) := by
  cases hPR <;> simp [myRowMerged]

/-- **C2**, counterexample: in the temporal planned-vs-actual path (planned
rate present) the `Effective rate` is Revenue / Billable hours, not
Revenue / Hours worked: with 10 h worked, 5 h billable and revenue 500 the
output rate is 100, while the claim demands 500 / 10 = 50. -/
theorem temporal_effective_rate_uses_billable_hours :
    ((aggregate_project_by_month_year ⟨true, false, false, false⟩ true
        [⟨2025, 1, "P", 10, 5, 0, 500, 0, 0⟩]
        (some [⟨77, "X", "Q", 2025, 1, 10, 40⟩])).map
          (fun r => (r.effectiveRate, r.hoursWorked, r.revenue)))
      = [(100, 10, 500)]
    ∧ ¬ ((100 : ℚ) = 500 / 10) := by
  constructor
  · norm_num [aggregate_project_by_month_year, myMerged, actualMonthBase,
      plannedMonthYear, weightedPlannedRate, myRowMerged, monthRevenueOf,
      monthCostOf, monthProfitOf, mySort, List.insertionSort, List.orderedInsert,
      uniqueKeys, uniqueAux, nunique, billabilityPctOf, PdVal.div, PdVal.scale,
      PdVal.round2v, PdVal.fillna, PdVal.sub, PdVal.gtZero, round2, roundHalfEven,
      List.filter, List.find?]
  · norm_num

/-- **C2**, amended: `Effective rate = Revenue / Hours worked` (0 when hours
worked is 0) in the dimensional aggregates and in every temporal path whose
planned data has no rate column; but in the temporal planned-vs-actual path
with a planned rate, `Effective rate = round2(Revenue / Billable hours)`
(0 when billable hours is 0). -/
theorem effective_rate_by_path :
    (∀ s recs, ∀ row ∈ aggregate_by_customer s recs,
        row.effectiveRate
          = if 0 < row.hoursWorked then row.revenue / row.hoursWorked else 0)
    ∧ (∀ s hPR recs, ∀ row ∈ aggregate_project_by_month_year s hPR recs none,
        row.effectiveRate
          = if 0 < row.hoursWorked then row.revenue / row.hoursWorked else 0)
    ∧ (∀ s recs ps, ∀ row ∈ aggregate_project_by_month_year s false recs (some ps),
        row.effectiveRate
          = if 0 < row.hoursWorked then row.revenue / row.hoursWorked else 0)
    ∧ (∀ s recs ps, ps ≠ [] →
        ∀ row ∈ aggregate_project_by_month_year s true recs (some ps),
        row.effectiveRate
          = if 0 < row.billableHours then round2 (row.revenue / row.billableHours)
            else 0) := by
  have hNoPlanned : ∀ (s : FinSchema) (recs : List TimeRecM),
      ∀ row ∈ (actualMonthBase recs).map (myRowNoPlanned s recs),
        row.effectiveRate
          = if 0 < row.hoursWorked then row.revenue / row.hoursWorked else 0 := by
    intro s recs row h
    rw [List.mem_map] at h
    obtain ⟨b, -, rfl⟩ := h
    simp [myRowNoPlanned]
  have hMergedTrue : ∀ (s : FinSchema) (recs : List TimeRecM) (ps : List PlannedRec),
      ∀ row ∈ myMerged s true recs ps,
        row.effectiveRate
          = if 0 < row.billableHours then round2 (row.revenue / row.billableHours)
            else 0 := by
    intro s recs ps row h
    obtain ⟨y, m, w, b, np, nb, bil, ph, pr, prev, rfl⟩ := mem_myMerged h
    simpa using myRowMerged_effectiveRate s true recs y m w b np nb bil ph pr prev
  have hMergedFalse : ∀ (s : FinSchema) (recs : List TimeRecM) (ps : List PlannedRec),
      ∀ row ∈ myMerged s false recs ps,
        row.effectiveRate
          = if 0 < row.hoursWorked then row.revenue / row.hoursWorked else 0 := by
    intro s recs ps row h
    obtain ⟨y, m, w, b, np, nb, bil, ph, pr, prev, rfl⟩ := mem_myMerged h
    simpa using myRowMerged_effectiveRate s false recs y m w b np nb bil ph pr prev
  have hPlannedOnly : ∀ (hPR : Bool) (ps : List PlannedRec),
      ∀ row ∈ (plannedMonthYear hPR ps).map (myRowPlannedOnly hPR),
        row.effectiveRate = 0 ∧ row.hoursWorked = 0 ∧ row.billableHours = 0 := by
    intro hPR ps row h
    rw [List.mem_map] at h
    obtain ⟨q, -, rfl⟩ := h
    simp [myRowPlannedOnly]
  refine ⟨?_, ?_, ?_, ?_⟩
  · intro s recs row hrow
    simp only [aggregate_by_customer, List.mem_map] at hrow
    obtain ⟨k, -, rfl⟩ := hrow
    rfl
  · intro s hPR recs row hrow
    simp only [aggregate_project_by_month_year] at hrow
    by_cases hrecs : recs = []
    · rw [if_pos hrecs] at hrow
      exact absurd hrow (List.not_mem_nil row)
    · rw [if_neg hrecs, mem_mySort] at hrow
      exact hNoPlanned s recs row hrow
  · intro s recs ps row hrow
    simp only [aggregate_project_by_month_year] at hrow
    by_cases hps : ps = []
    · rw [if_pos hps] at hrow
      by_cases hrecs : recs = []
      · rw [if_pos hrecs] at hrow
        exact absurd hrow (List.not_mem_nil row)
      · rw [if_neg hrecs, mem_mySort] at hrow
        exact hNoPlanned s recs row hrow
    · rw [if_neg hps] at hrow
      by_cases hrecs : recs = []
      · rw [if_pos hrecs, mem_mySort] at hrow
        obtain ⟨h0, hw, -⟩ := hPlannedOnly false ps row hrow
        rw [h0, hw]
        simp
      · rw [if_neg hrecs, mem_mySort] at hrow
        exact hMergedFalse s recs ps row hrow
  · intro s recs ps hps row hrow
    simp only [aggregate_project_by_month_year] at hrow
    rw [if_neg hps] at hrow
    by_cases hrecs : recs = []
    · rw [if_pos hrecs, mem_mySort] at hrow
      obtain ⟨h0, -, hb⟩ := hPlannedOnly true ps row hrow
      rw [h0, hb]
      simp
    · rw [if_neg hrecs, mem_mySort] at hrow
      exact hMergedTrue s recs ps row hrow

/-- Witness for `effective_rate_by_path` (fourth conjunct) at the concrete
temporal input: the single output bucket has billable hours 5, revenue 500
and effective rate `round2(500/5) = 100`. -/
theorem effective_rate_by_path_witness :
    (([⟨77, "X", "Q", 2025, 1, 10, 40⟩] : List PlannedRec) ≠ [])
    ∧ ((⟨2025, 1, 10, 5, 1, 5, .fin 50, some 10, some 40, some (.fin 400),
          some 0, some 0, 500, 0, 100, some 60, some 150, some (.fin 100),
          some (.fin 25), some 0, some 0, some 0⟩ : MYRow)
        ∈ aggregate_project_by_month_year ⟨true, false, false, false⟩ true
            [⟨2025, 1, "P", 10, 5, 0, 500, 0, 0⟩]
            (some [⟨77, "X", "Q", 2025, 1, 10, 40⟩]))
    ∧ ((⟨2025, 1, 10, 5, 1, 5, .fin 50, some 10, some 40, some (.fin 400),
          some 0, some 0, 500, 0, 100, some 60, some 150, some (.fin 100),
          some (.fin 25), some 0, some 0, some 0⟩ : MYRow).effectiveRate
        = if 0 < (⟨2025, 1, 10, 5, 1, 5, .fin 50, some 10, some 40, some (.fin 400),
              some 0, some 0, 500, 0, 100, some 60, some 150, some (.fin 100),
              some (.fin 25), some 0, some 0, some 0⟩ : MYRow).billableHours
          then round2 ((⟨2025, 1, 10, 5, 1, 5, .fin 50, some 10, some 40, some (.fin 400),
              some 0, some 0, 500, 0, 100, some 60, some 150, some (.fin 100),
              some (.fin 25), some 0, some 0, some 0⟩ : MYRow).revenue
            / (⟨2025, 1, 10, 5, 1, 5, .fin 50, some 10, some 40, some (.fin 400),
              some 0, some 0, 500, 0, 100, some 60, some 150, some (.fin 100),
              some (.fin 25), some 0, some 0, some 0⟩ : MYRow).billableHours)
          else 0) := by
  have hmem : (⟨2025, 1, 10, 5, 1, 5, .fin 50, some 10, some 40, some (.fin 400),
        some 0, some 0, 500, 0, 100, some 60, some 150, some (.fin 100),
        some (.fin 25), some 0, some 0, some 0⟩ : MYRow)
      ∈ aggregate_project_by_month_year ⟨true, false, false, false⟩ true
          [⟨2025, 1, "P", 10, 5, 0, 500, 0, 0⟩]
          (some [⟨77, "X", "Q", 2025, 1, 10, 40⟩]) := by
    norm_num [aggregate_project_by_month_year, myMerged, actualMonthBase,
      plannedMonthYear, weightedPlannedRate, myRowMerged, monthRevenueOf,
      monthCostOf, monthProfitOf, mySort, List.insertionSort, List.orderedInsert,
      uniqueKeys, uniqueAux, nunique, billabilityPctOf, PdVal.div, PdVal.scale,
      PdVal.round2v, PdVal.fillna, PdVal.sub, PdVal.gtZero, round2, roundHalfEven,
      List.filter, List.find?]
  exact ⟨by simp, hmem,
    effective_rate_by_path.2.2.2 ⟨true, false, false, false⟩
      [⟨2025, 1, "P", 10, 5, 0, 500, 0, 0⟩] [⟨77, "X", "Q", 2025, 1, 10, 40⟩]
      (by simp) _ hmem⟩

/-! ### C8 -/

/-- The spec's description of which absence columns count toward capacity
reduction: the column parses to an absence-type id that is in the include set
or in neither set.  (Second, spec-side definition, compared against the
code's fold in `includedAbsenceSum_eq_spec`.) -/
def specIncludedCol (cfg : CapacityConfig) (c : String) : Bool :=
  match extract_absence_id_from_column c with
  | some id => id ∈ cfg.includeIds ∨ (id ∉ cfg.includeIds ∧ id ∉ cfg.excludeIds)
  | none => false

/-- The spec's included absence hours of a weekly row: sum of the cells of
exactly the columns selected by `specIncludedCol`. -/
def specIncludedAbsence (cfg : CapacityConfig) (cols : List String) (r : WeeklyRow) : ℚ :=
  ((cols.filter (specIncludedCol cfg)).map (fun c => (r.absVal c).getD 0)).sum

theorem includedAbsence_foldl_eq (cfg : CapacityConfig) (r : WeeklyRow) :
    ∀ (cs : List String) (acc : ℚ),
      cs.foldl (fun acc c =>
        match extract_absence_id_from_column c with
        | none => acc
        | some id =>
            if id ∈ cfg.includeIds then acc + (r.absVal c).getD 0
            else if id ∈ cfg.excludeIds then acc
            else acc + (r.absVal c).getD 0) acc
      = acc + ((cs.filter (specIncludedCol cfg)).map (fun c => (r.absVal c).getD 0)).sum := by
  intro cs
  induction cs with
  | nil => intro acc; simp
  | cons c cs ih =>
      intro acc
      rw [List.foldl_cons, List.filter_cons]
      cases hex : extract_absence_id_from_column c with
      | none =>
          have hcol : specIncludedCol cfg c = false := by
            simp [specIncludedCol, hex]
          simp only [hcol]
          rw [ih acc]
          simp
      | some id =>
          by_cases hinc : id ∈ cfg.includeIds
          · have hcol : specIncludedCol cfg c = true := by
              simp [specIncludedCol, hex, hinc]
            simp only [hcol, hex, if_pos hinc, if_true]
            rw [ih (acc + (r.absVal c).getD 0)]
            simp only [List.map_cons, List.sum_cons]
            ring
          · by_cases hexc : id ∈ cfg.excludeIds
            · have hcol : specIncludedCol cfg c = false := by
                simp [specIncludedCol, hex, hinc, hexc]
              simp only [hcol, hex, if_neg hinc, if_pos hexc, if_false]
              rw [ih acc]
              simp
            · have hcol : specIncludedCol cfg c = true := by
                simp [specIncludedCol, hex, hinc, hexc]
              simp only [hcol, hex, if_neg hinc, if_neg hexc, if_true]
              rw [ih (acc + (r.absVal c).getD 0)]
              simp only [List.map_cons, List.sum_cons]
              ring

/-- A column whose name does not start with `"Absence "` is also rejected by
the spec predicate. -/
theorem specIncludedCol_false_of_not_absence (cfg : CapacityConfig) (c : String)
    (h : strStartsWith c "Absence " = false) : specIncludedCol cfg c = false := by
  simp [specIncludedCol, extract_absence_id_from_column, h]

/-- The code's accumulated absence sum equals the spec's filtered sum. -/
theorem includedAbsenceSum_eq_spec (cfg : CapacityConfig) (cols : List String)
    (r : WeeklyRow) :
    includedAbsenceSum cfg cols r = specIncludedAbsence cfg cols r := by
  unfold includedAbsenceSum specIncludedAbsence
  rw [includedAbsence_foldl_eq cfg r _ 0, zero_add]
  rw [List.filter_filter]
  have hfil : cols.filter (fun a => specIncludedCol cfg a && strStartsWith a "Absence ")
      = cols.filter (specIncludedCol cfg) := by
    apply List.filter_congr
    intro c _
    cases hs : strStartsWith c "Absence " with
    | true => simp
    | false => simp [specIncludedCol_false_of_not_absence cfg c hs]
  rw [hfil]

/-- With distinct (date, person) keys, the absence row looked up for a weekly
row is its own transformed row. -/
theorem absence_lookup (cfg : CapacityConfig) (cols : List String) :
    ∀ (w : List WeeklyRow) (r : WeeklyRow), r ∈ w →
      (w.map (fun x => (x.date, x.person))).Nodup →
      ((w.map (fun x =>
          ({ date := x.date, person := x.person,
             absenceHours := includedAbsenceSum cfg cols x } : AbsenceRow))).filter
          (fun b => b.date = r.date ∧ b.person = r.person)).head?
        = some { date := r.date, person := r.person,
                 absenceHours := includedAbsenceSum cfg cols r } := by
  intro w
  induction w with
  | nil => intro r hr; exact absurd hr (List.not_mem_nil r)
  | cons x xs ih =>
      intro r hr hnd
      simp only [List.map_cons, List.nodup_cons] at hnd
      by_cases hkey : x.date = r.date ∧ x.person = r.person
      · have hxr : x = r ∨ r ∈ xs := List.mem_cons.mp hr |>.imp Eq.symm id
        have hx_eq : x = r := by
          rcases hxr with h | h
          · exact h
          · exact absurd (by rw [hkey.1, hkey.2]; exact List.mem_map_of_mem _ h) hnd.1
        subst hx_eq
        simp [List.filter_cons, hkey]
      · have hr' : r ∈ xs := by
          rcases List.mem_cons.mp hr with h | h
          · exact absurd ⟨by rw [h], by rw [h]⟩ hkey
          · exact h
        simpa [List.filter_cons, hkey] using ih r hr' hnd.2

/-- **C8**: for weekly rows with distinct (date, person) keys and disjoint
include/exclude sets, the capacity pipeline sums absence hours over exactly
the columns whose absence-type id is in the include set or in neither set,
and floors available capacity at 0; columns whose id sits (only) in the
exclude set are never part of the sum. -/
theorem capacity_row_semantics (cfg : CapacityConfig) (cols : List String)
    (w : List WeeklyRow) (hw : w ≠ [])
    (hnd : (w.map (fun r => (r.date, r.person))).Nodup)
    (hdisj : ∀ id ∈ cfg.excludeIds, id ∉ cfg.includeIds) :
    create_capacity_summary (transform_weekly_to_schedule w)
        (transform_weekly_to_absence cfg cols w) cfg
      = w.map (fun r =>
          { date := r.date
            person := r.person
            scheduledHours := r.scheduled
            absenceHours := specIncludedAbsence cfg cols r
            availableCapacity := max (r.scheduled - specIncludedAbsence cfg cols r) 0
            billableTarget := cfg.billableTarget
            targetBillableHours :=
              max (r.scheduled - specIncludedAbsence cfg cols r) 0 * cfg.billableTarget })
    ∧ (∀ c id, extract_absence_id_from_column c = some id →
        id ∈ cfg.excludeIds → specIncludedCol cfg c = false) := by
  constructor
  · match w, hw with
    | r₀ :: w', _ =>
      rw [show transform_weekly_to_schedule (r₀ :: w')
            = (r₀ :: w').map
              (fun r => ({ date := r.date, person := r.person,
                           scheduledHours := r.scheduled } : ScheduleRow)) from rfl,
          show transform_weekly_to_absence cfg cols (r₀ :: w')
            = (r₀ :: w').map
              (fun x => ({ date := x.date, person := x.person,
                           absenceHours := includedAbsenceSum cfg cols x } : AbsenceRow))
            from rfl]
      unfold create_capacity_summary
      rw [if_neg (by simp)]
      rw [List.map_map]
      apply List.map_congr_left
      intro r hr
      have hlookup := absence_lookup cfg cols (r₀ :: w') r hr hnd
      simp only [Function.comp_apply]
      rw [if_neg (by simp), hlookup]
      simp only [Option.map_some', Option.getD_some]
      rw [includedAbsenceSum_eq_spec]
  · intro c id hex hexc
    have hinc := hdisj id hexc
    simp [specIncludedCol, hex, hinc, hexc]

/-- Witness for `capacity_row_semantics`: the spec's example — scheduled 40,
included absence 48 (an excluded parental column does not count) — yields
available capacity 0, floored rather than −8. -/
theorem capacity_row_semantics_witness :
    (([⟨"P", 0, 40, fun c =>
        if c = "Absence sick_1 hours" then some 48
        else if c = "Absence parental_9 hours" then some 5 else none⟩] : List WeeklyRow) ≠ [])
    ∧ (∀ id ∈ (⟨["sick_1"], ["parental_9"], 4/5⟩ : CapacityConfig).excludeIds,
        id ∉ (⟨["sick_1"], ["parental_9"], 4/5⟩ : CapacityConfig).includeIds)
    ∧ create_capacity_summary
        (transform_weekly_to_schedule
          [⟨"P", 0, 40, fun c =>
            if c = "Absence sick_1 hours" then some 48
            else if c = "Absence parental_9 hours" then some 5 else none⟩])
        (transform_weekly_to_absence ⟨["sick_1"], ["parental_9"], 4/5⟩
          ["Absence sick_1 hours", "Absence parental_9 hours"]
          [⟨"P", 0, 40, fun c =>
            if c = "Absence sick_1 hours" then some 48
            else if c = "Absence parental_9 hours" then some 5 else none⟩])
        ⟨["sick_1"], ["parental_9"], 4/5⟩
      = [⟨"P", 0, 40, fun c =>
            if c = "Absence sick_1 hours" then some 48
            else if c = "Absence parental_9 hours" then some 5 else none⟩].map
          (fun r =>
            { date := r.date
              person := r.person
              scheduledHours := r.scheduled
              absenceHours := specIncludedAbsence ⟨["sick_1"], ["parental_9"], 4/5⟩
                ["Absence sick_1 hours", "Absence parental_9 hours"] r
              availableCapacity := max (r.scheduled
                - specIncludedAbsence ⟨["sick_1"], ["parental_9"], 4/5⟩
                    ["Absence sick_1 hours", "Absence parental_9 hours"] r) 0
              billableTarget := (4 : ℚ)/5
              targetBillableHours := max (r.scheduled
                - specIncludedAbsence ⟨["sick_1"], ["parental_9"], 4/5⟩
                    ["Absence sick_1 hours", "Absence parental_9 hours"] r) 0 * ((4 : ℚ)/5) })
    ∧ specIncludedAbsence ⟨["sick_1"], ["parental_9"], 4/5⟩
        ["Absence sick_1 hours", "Absence parental_9 hours"]
        ⟨"P", 0, 40, fun c =>
          if c = "Absence sick_1 hours" then some 48
          else if c = "Absence parental_9 hours" then some 5 else none⟩ = 48
    ∧ max ((40 : ℚ) - 48) 0 = 0 := by
  have hex1 : extract_absence_id_from_column "Absence sick_1 hours" = some "sick_1" := by
    decide
  have hex2 : extract_absence_id_from_column "Absence parental_9 hours"
      = some "parental_9" := by decide
  have habs : specIncludedAbsence ⟨["sick_1"], ["parental_9"], 4/5⟩
      ["Absence sick_1 hours", "Absence parental_9 hours"]
      ⟨"P", 0, 40, fun c =>
        if c = "Absence sick_1 hours" then some 48
        else if c = "Absence parental_9 hours" then some 5 else none⟩ = 48 := by
    have hc1 : specIncludedCol (⟨["sick_1"], ["parental_9"], 4/5⟩ : CapacityConfig)
        "Absence sick_1 hours" = true := by
      simp [specIncludedCol, hex1]
    have hc2 : specIncludedCol (⟨["sick_1"], ["parental_9"], 4/5⟩ : CapacityConfig)
        "Absence parental_9 hours" = false := by
      simp [specIncludedCol, hex2]
    norm_num [specIncludedAbsence, List.filter, hc1, hc2]
  refine ⟨by simp, by decide, ?_, habs, by norm_num⟩
  exact (capacity_row_semantics ⟨["sick_1"], ["parental_9"], 4/5⟩
    ["Absence sick_1 hours", "Absence parental_9 hours"] _ (by simp)
    (by simp) (by decide)).1

/-! ### C6 -/

/-- Chronological order on output forecast rows. -/
def chronoFR (a b : ForecastRow) : Prop :=
  a.year < b.year ∨ (a.year = b.year ∧ a.month ≤ b.month)

theorem length_accumulate (acc : ℚ) (l : List DecoratedRow) :
    (accumulate acc l).length = l.length := by
  induction l generalizing acc with
  | nil => rfl
  | cons d rest ih => simp [accumulate, ih]

theorem mem_accumulate {fr : ForecastRow} :
    ∀ {l : List DecoratedRow} {acc : ℚ}, fr ∈ accumulate acc l →
      ∃ d ∈ l, fr.year = d.base.year ∧ fr.month = d.base.month
        ∧ fr.hoursWorked = d.base.hoursWorked ∧ fr.plannedHours = d.base.plannedHours
        ∧ fr.timePeriod = d.timePeriod ∧ fr.monthValue = d.monthValue := by
  intro l
  induction l with
  | nil => intro acc h; exact absurd h (List.not_mem_nil fr)
  | cons d rest ih =>
      intro acc h
      rw [accumulate, List.mem_cons] at h
      rcases h with h | h
      · exact ⟨d, List.mem_cons_self d rest, by
          subst h
          exact ⟨rfl, rfl, rfl, rfl, rfl, rfl⟩⟩
      · obtain ⟨d', hd', hprops⟩ := ih h
        exact ⟨d', List.mem_cons_of_mem d hd', hprops⟩

theorem sorted_accumulate {l : List DecoratedRow} (acc : ℚ)
    (h : List.Sorted chronoLE l) : List.Sorted chronoFR (accumulate acc l) := by
  induction l generalizing acc with
  | nil => exact List.sorted_nil
  | cons d rest ih =>
      rw [List.sorted_cons] at h
      rw [accumulate, List.sorted_cons]
      refine ⟨?_, ih _ h.2⟩
      intro fr hfr
      obtain ⟨d', hd', hy, hm, -, -, -, -⟩ := mem_accumulate hfr
      have hle := h.1 d' hd'
      unfold chronoLE at hle
      unfold chronoFR
      rw [hy, hm]
      exact hle

theorem accumulate_get (l : List DecoratedRow) (acc : ℚ) :
    ∀ (i : ℕ) (h : i < (accumulate acc l).length),
      ((accumulate acc l).get ⟨i, h⟩).accumulated
        = acc + (((accumulate acc l).take (i + 1)).map (·.monthValue)).sum := by
  induction l generalizing acc with
  | nil => intro i h; simp [accumulate] at h
  | cons d rest ih =>
      intro i h
      cases i with
      | zero => simp [accumulate]
      | succ j =>
          have hlen : j < (accumulate (acc + d.monthValue) rest).length := by
            simpa [accumulate] using h
          have := ih (acc + d.monthValue) j hlen
          simp only [accumulate, List.get_cons_succ, List.take_succ_cons,
            List.map_cons, List.sum_cons] at this ⊢
          rw [this]
          ring

theorem accumulate_last (l : List DecoratedRow) :
    ∀ (acc : ℚ), l ≠ [] →
      ((accumulate acc l).map (·.accumulated)).getLast?
        = some (acc + (l.map (·.monthValue)).sum) := by
  induction l with
  | nil => intro acc h; exact absurd rfl h
  | cons d rest ih =>
      intro acc _
      cases rest with
      | nil => simp [accumulate]
      | cons d' rest' =>
          have htail := ih (acc + d.monthValue) (List.cons_ne_nil d' rest')
          rw [accumulate, List.map_cons]
          rw [show accumulate (acc + d.monthValue) (d' :: rest')
              = _ :: accumulate (acc + d.monthValue + d'.monthValue) rest' from rfl] at htail ⊢
          rw [List.map_cons] at htail ⊢
          rw [List.getLast?_cons_cons, htail]
          simp only [List.map_cons, List.sum_cons]
          ring_nf

/-- **C6**: in the forecast series, a bucket strictly before the reference
month is labelled `"Actual"` and carries its hours worked, any other bucket
is labelled `"Planned"` and carries its planned hours; the series is sorted
chronologically by (Year, Month); each `Accumulated Forecast` value is the
running sum of the month values up to that bucket; and the last accumulated
value is the sum of all month values. -/
theorem forecast_series_semantics (cy cm cd : ℕ) (rows : List MonthSeriesRow) :
    (∀ fr ∈ create_forecast_chart cy cm cd rows,
        (fr.timePeriod = "Actual" ↔ beforeMonth cy cm fr.year fr.month)
        ∧ fr.monthValue = (if beforeMonth cy cm fr.year fr.month
            then fr.hoursWorked else fr.plannedHours))
    ∧ List.Sorted chronoFR (create_forecast_chart cy cm cd rows)
    ∧ (∀ (i : ℕ) (h : i < (create_forecast_chart cy cm cd rows).length),
        ((create_forecast_chart cy cm cd rows).get ⟨i, h⟩).accumulated
          = (((create_forecast_chart cy cm cd rows).take (i + 1)).map
              (·.monthValue)).sum)
    ∧ (rows ≠ [] →
        ((create_forecast_chart cy cm cd rows).map (·.accumulated)).getLast?
          = some ((rows.map (fun r =>
              if beforeMonth cy cm r.year r.month then r.hoursWorked
              else r.plannedHours)).sum)) := by
  have hdec : ∀ r : MonthSeriesRow,
      ((decorateRow cy cm r).timePeriod = "Actual" ↔ beforeMonth cy cm r.year r.month)
      ∧ (decorateRow cy cm r).monthValue
          = (if beforeMonth cy cm r.year r.month then r.hoursWorked else r.plannedHours) := by
    intro r
    unfold decorateRow
    by_cases hb : beforeMonth cy cm r.year r.month
    · simp [hb]
    · simp [hb]
  refine ⟨?_, ?_, ?_, ?_⟩
  · intro fr hfr
    unfold create_forecast_chart at hfr
    obtain ⟨d, hd, hy, hm, hw, hp, htp, hv⟩ := mem_accumulate hfr
    rw [(List.perm_insertionSort chronoLE _).mem_iff, List.mem_map] at hd
    obtain ⟨r, -, rfl⟩ := hd
    have hdr := hdec r
    have hyr : fr.year = r.year := hy
    have hmr : fr.month = r.month := hm
    constructor
    · rw [htp, hyr, hmr]
      exact hdr.1
    · rw [hv, hyr, hmr, hw, hp]
      exact hdr.2
  · exact sorted_accumulate 0
      (List.sorted_insertionSort chronoLE (rows.map (decorateRow cy cm)))
  · intro i h
    have := accumulate_get
      (List.insertionSort chronoLE (rows.map (decorateRow cy cm))) 0 i h
    simpa [create_forecast_chart] using this
  · intro hrows
    unfold create_forecast_chart
    have hne : List.insertionSort chronoLE (rows.map (decorateRow cy cm)) ≠ [] := by
      intro hcontra
      have := (List.perm_insertionSort chronoLE (rows.map (decorateRow cy cm))).length_eq
      rw [hcontra] at this
      simp only [List.length_nil, List.length_map] at this
      exact hrows (List.length_eq_zero.mp this.symm)
    rw [accumulate_last _ 0 hne, zero_add]
    congr 1
    have hperm := (List.perm_insertionSort chronoLE (rows.map (decorateRow cy cm))).map
      (fun d : DecoratedRow => d.monthValue)
    rw [hperm.sum_eq]
    rw [List.map_map]
    congr 1
    apply List.map_congr_left
    intro r _
    exact (hdec r).2

/-- Witness for `forecast_series_semantics`: two buckets given out of order
around a July 2025 reference; the series sorts to (Jun, Aug), accumulates to
(10, 40), and the last accumulated value 40 is the total of the month
values. -/
theorem forecast_series_witness :
    (([⟨2025, 8, "Aug", 7, 30⟩, ⟨2025, 6, "Jun", 10, 20⟩] : List MonthSeriesRow) ≠ [])
    ∧ ((create_forecast_chart 2025 7 1
          [⟨2025, 8, "Aug", 7, 30⟩, ⟨2025, 6, "Jun", 10, 20⟩]).map
            (fun fr => (fr.timePeriod, fr.monthValue, fr.accumulated)))
        = [("Actual", 10, 10), ("Planned", 30, 40)]
    ∧ ((create_forecast_chart 2025 7 1
          [⟨2025, 8, "Aug", 7, 30⟩, ⟨2025, 6, "Jun", 10, 20⟩]).map (·.accumulated)).getLast?
        = some ((([⟨2025, 8, "Aug", 7, 30⟩, ⟨2025, 6, "Jun", 10, 20⟩] :
            List MonthSeriesRow).map (fun r =>
              if beforeMonth 2025 7 r.year r.month then r.hoursWorked
              else r.plannedHours)).sum) := by
  refine ⟨by simp, ?_, ?_⟩
  · have hPA : ("Planned" : String) = "Actual" ↔ False := by simp
    have hAA : ("Actual" : String) = "Actual" ↔ True := by simp
    norm_num [create_forecast_chart, accumulate, decorateRow, beforeMonth,
      List.insertionSort, List.orderedInsert, chronoLE, hPA, hAA]
  · exact (forecast_series_semantics 2025 7 1 _).2.2.2 (by simp)

/-! ### C4 -/

/-- Merge key of an actual project-aggregate row. -/
def aKey (a : ActualProjRow) : ℕ × String := (a.projectNumber, a.projectName)

/-- Merge key of a planned project-aggregate row. -/
def pKey (p : PlannedProjRow) : ℕ × String := (p.projectNumber, p.projectName)

/-- Merge key of a merged row. -/
def mKey (m : MergedProjRow) : ℕ × String := (m.projectNumber, m.projectName)

theorem finish_variance (h1 h2 : Bool) (r : MergedProjRow) :
    (finishMergedRow h1 h2 r).hoursVariance
      = (finishMergedRow h1 h2 r).hoursWorked - (finishMergedRow h1 h2 r).plannedHours
    ∧ (finishMergedRow h1 h2 r).variancePct
      = (if 0 < (finishMergedRow h1 h2 r).plannedHours
         then round2 (((finishMergedRow h1 h2 r).hoursWorked
            - (finishMergedRow h1 h2 r).plannedHours)
            / (finishMergedRow h1 h2 r).plannedHours * 100)
         else 0) := by
  constructor <;> simp [finishMergedRow]

theorem matched_planned_le_one (ps : List PlannedProjRow) (a : ActualProjRow)
    (h : (ps.map pKey).Nodup) :
    (ps.filter (fun p =>
      p.projectNumber = a.projectNumber ∧ p.projectName = a.projectName)).length ≤ 1 := by
  have heq : ps.filter (fun p =>
        p.projectNumber = a.projectNumber ∧ p.projectName = a.projectName)
      = ps.filter (fun p => pKey p = aKey a) := by
    apply List.filter_congr
    intro p _
    simp [pKey, aKey, Prod.ext_iff]
  rw [heq]
  exact filter_key_length_le_one pKey ps (aKey a) h

theorem unmatched_planned_filter (as : List ActualProjRow) (ps : List PlannedProjRow) :
    ps.filter (fun p => ¬ as.any (fun a =>
        p.projectNumber = a.projectNumber ∧ p.projectName = a.projectName))
      = ps.filter (fun p => pKey p ∉ as.map aKey) := by
  apply List.filter_congr
  intro p _
  simp only [decide_eq_decide, List.any_eq_true, decide_eq_true_eq, List.mem_map,
    not_exists, not_and, pKey, aKey, Prod.ext_iff]
  tauto

theorem outerMerge_keys (hPR hPRev : Bool) (as : List ActualProjRow)
    (ps : List PlannedProjRow) (hkps : (ps.map pKey).Nodup) :
    (outerMergeProjects hPR hPRev as ps).map mKey
      = as.map aKey ++ (ps.map pKey).filter (fun k => k ∉ as.map aKey) := by
  unfold outerMergeProjects
  rw [List.map_map, List.map_append]
  congr 1
  · induction as with
    | nil => simp
    | cons a as ih =>
        rw [List.flatMap_cons, List.map_append, ih, List.map_cons]
        by_cases hms : (ps.filter (fun p =>
            p.projectNumber = a.projectNumber ∧ p.projectName = a.projectName)).isEmpty
        · rw [if_pos hms]
          rfl
        · rw [if_neg hms]
          have hle := matched_planned_le_one ps a hkps
          have hne : (ps.filter (fun p =>
              p.projectNumber = a.projectNumber ∧ p.projectName = a.projectName)).length ≠ 0 := by
            intro hzero
            exact hms (by
              rw [List.isEmpty_iff, ← List.length_eq_zero]
              exact hzero)
          obtain ⟨p0, hp0⟩ := List.length_eq_one.mp (le_antisymm hle (Nat.one_le_iff_ne_zero.mpr hne))
          rw [hp0]
          rfl
  · rw [List.map_map, unmatched_planned_filter as ps]
    exact filter_map_comm ps pKey (fun k => k ∉ as.map aKey)

theorem mem_outerMerge {m : MergedProjRow} (hPR hPRev : Bool)
    {as : List ActualProjRow} {ps : List PlannedProjRow}
    (h : m ∈ outerMergeProjects hPR hPRev as ps) :
    ∃ r, m = finishMergedRow hPR hPRev r ∧
      ((∃ a ∈ as, ∃ p ∈ ps, pKey p = aKey a ∧ r = mergeBoth hPR hPRev a p)
       ∨ (∃ a ∈ as, r = mergeActualOnly hPR hPRev a)
       ∨ (∃ p ∈ ps, pKey p ∉ as.map aKey ∧ r = mergePlannedOnly hPR hPRev p)) := by
  unfold outerMergeProjects at h
  rw [List.mem_map] at h
  obtain ⟨r, hr, rfl⟩ := h
  refine ⟨r, rfl, ?_⟩
  rw [List.mem_append] at hr
  rcases hr with hr | hr
  · rw [List.mem_flatMap] at hr
    obtain ⟨a, ha, hra⟩ := hr
    by_cases hms : (ps.filter (fun p =>
        p.projectNumber = a.projectNumber ∧ p.projectName = a.projectName)).isEmpty
    · rw [if_pos hms, List.mem_singleton] at hra
      exact Or.inr (Or.inl ⟨a, ha, hra⟩)
    · rw [if_neg hms, List.mem_map] at hra
      obtain ⟨p, hp, rfl⟩ := hra
      have hp' := List.mem_filter.mp hp
      refine Or.inl ⟨a, ha, p, hp'.1, ?_, rfl⟩
      have hcond := hp'.2
      simp only [decide_eq_true_eq] at hcond
      rw [pKey, aKey, Prod.ext_iff]
      exact ⟨hcond.1, hcond.2⟩
  · rw [List.mem_map] at hr
    obtain ⟨p, hp, rfl⟩ := hr
    rw [unmatched_planned_filter as ps, List.mem_filter] at hp
    refine Or.inr (Or.inr ⟨p, hp.1, ?_, rfl⟩)
    simpa using hp.2

/-- **C4**, counterexample: actual 4 h against planned 3 h gives the merged
variance percentage `round2(100/3) = 33.33`, not the claim's exact
`1 / 3 × 100`. -/
theorem variance_pct_rounded :
    merge_actual_planned_projects false false
        (some [⟨1, "A", 4, 2, 2, .fin 50, 1, 0, 0⟩])
        (some [⟨1, "A", 3, 1, 0, 0⟩])
      = .mergedOut [⟨1, "A", 4, 2, 0, some 2, .fin 50, some 1, .fin 0, 3, none, none,
          1, 3333/100, none, none, none, none⟩]
    ∧ (3333/100 : ℚ) ≠ 1 / 3 * 100 := by
  constructor
  · norm_num [merge_actual_planned_projects, outerMergeProjects, mergeBoth,
      mergeActualOnly, mergePlannedOnly, finishMergedRow, round2, roundHalfEven,
      List.filter]
  · norm_num

/-- **C4**, amended: for nonempty project aggregates with unique keys, the
merge is an outer join carrying one row per key of the union (actual keys
first, then planned-only keys); a key only in actual has planned hours /
revenue / rate 0, a key only in planned has hours worked, billable hours and
revenue 0; every row satisfies
`Hours variance = Hours worked − Planned hours` and
`Variance % = round2(Hours variance / Planned hours × 100)` with 0
substituted when planned hours is 0. -/
theorem outer_join_variance_semantics (hPR hPRev : Bool)
    (as : List ActualProjRow) (ps : List PlannedProjRow)
    (has : as ≠ []) (hps : ps ≠ [])
    (hkas : (as.map aKey).Nodup) (hkps : (ps.map pKey).Nodup) :
    merge_actual_planned_projects hPR hPRev (some as) (some ps)
        = .mergedOut (outerMergeProjects hPR hPRev as ps)
    ∧ (outerMergeProjects hPR hPRev as ps).map mKey
        = as.map aKey ++ (ps.map pKey).filter (fun k => k ∉ as.map aKey)
    ∧ ((outerMergeProjects hPR hPRev as ps).map mKey).Nodup
    ∧ ∀ m ∈ outerMergeProjects hPR hPRev as ps,
        (mKey m ∉ ps.map pKey →
          m.plannedHours = 0 ∧ (hPRev = true → m.plannedRevenue = some 0)
          ∧ (hPR = true → m.plannedRate = some 0))
        ∧ (mKey m ∉ as.map aKey →
          m.hoursWorked = 0 ∧ m.billableHours = 0 ∧ m.revenue = 0)
        ∧ m.hoursVariance = m.hoursWorked - m.plannedHours
        ∧ m.variancePct = (if 0 < m.plannedHours
            then round2 ((m.hoursWorked - m.plannedHours) / m.plannedHours * 100)
            else 0) := by
  refine ⟨by simp [merge_actual_planned_projects, has, hps],
    outerMerge_keys hPR hPRev as ps hkps, ?_, ?_⟩
  · rw [outerMerge_keys hPR hPRev as ps hkps]
    refine List.Nodup.append hkas (hkps.filter _) ?_
    intro k hk1 hk2
    rw [List.mem_filter] at hk2
    exact absurd hk1 (by simpa using hk2.2)
  · intro m hm
    obtain ⟨r, rfl, hcase⟩ := mem_outerMerge hPR hPRev hm
    refine ⟨?_, ?_, finish_variance hPR hPRev r⟩
    · intro hnotp
      rcases hcase with ⟨a, -, p, hp, hkeq, rfl⟩ | ⟨a, -, rfl⟩ | ⟨p, hp, -, rfl⟩
      · exact absurd (by
          rw [show mKey (finishMergedRow hPR hPRev (mergeBoth hPR hPRev a p)) = aKey a from rfl,
            ← hkeq]
          exact List.mem_map_of_mem pKey hp) hnotp
      · refine ⟨rfl, fun h2 => ?_, fun h1 => ?_⟩
        · simp [finishMergedRow, mergeActualOnly, h2]
        · simp [finishMergedRow, mergeActualOnly, h1]
      · exact absurd (by
          rw [show mKey (finishMergedRow hPR hPRev (mergePlannedOnly hPR hPRev p)) = pKey p
            from rfl]
          exact List.mem_map_of_mem pKey hp) hnotp
    · intro hnota
      rcases hcase with ⟨a, ha, p, -, -, rfl⟩ | ⟨a, ha, rfl⟩ | ⟨p, -, -, rfl⟩
      · exact absurd (by
          rw [show mKey (finishMergedRow hPR hPRev (mergeBoth hPR hPRev a p)) = aKey a from rfl]
          exact List.mem_map_of_mem aKey ha) hnota
      · exact absurd (by
          rw [show mKey (finishMergedRow hPR hPRev (mergeActualOnly hPR hPRev a)) = aKey a
            from rfl]
          exact List.mem_map_of_mem aKey ha) hnota
      · exact ⟨rfl, rfl, rfl⟩

/-- Witness for `outer_join_variance_semantics`: one actual row (project 1)
and two planned rows (projects 1 and 2) with distinct keys. -/
theorem outer_join_variance_witness :
    (([⟨1, "A", 4, 2, 2, .fin 50, 1, 0, 0⟩] : List ActualProjRow) ≠ [])
    ∧ (([⟨1, "A", 3, 1, 0, 0⟩, ⟨2, "B", 6, 1, 0, 0⟩] : List PlannedProjRow) ≠ [])
    ∧ (([⟨1, "A", 4, 2, 2, .fin 50, 1, 0, 0⟩] : List ActualProjRow).map aKey).Nodup
    ∧ (([⟨1, "A", 3, 1, 0, 0⟩, ⟨2, "B", 6, 1, 0, 0⟩] : List PlannedProjRow).map pKey).Nodup
    ∧ merge_actual_planned_projects false false
        (some [⟨1, "A", 4, 2, 2, .fin 50, 1, 0, 0⟩])
        (some [⟨1, "A", 3, 1, 0, 0⟩, ⟨2, "B", 6, 1, 0, 0⟩])
      = .mergedOut (outerMergeProjects false false
          [⟨1, "A", 4, 2, 2, .fin 50, 1, 0, 0⟩]
          [⟨1, "A", 3, 1, 0, 0⟩, ⟨2, "B", 6, 1, 0, 0⟩])
    ∧ (outerMergeProjects false false
          [⟨1, "A", 4, 2, 2, .fin 50, 1, 0, 0⟩]
          [⟨1, "A", 3, 1, 0, 0⟩, ⟨2, "B", 6, 1, 0, 0⟩]).map mKey
      = ([⟨1, "A", 4, 2, 2, .fin 50, 1, 0, 0⟩] : List ActualProjRow).map aKey
        ++ (([⟨1, "A", 3, 1, 0, 0⟩, ⟨2, "B", 6, 1, 0, 0⟩] : List PlannedProjRow).map pKey).filter
            (fun k => k ∉ ([⟨1, "A", 4, 2, 2, .fin 50, 1, 0, 0⟩] : List ActualProjRow).map aKey) := by
  have h := outer_join_variance_semantics false false
    [⟨1, "A", 4, 2, 2, .fin 50, 1, 0, 0⟩]
    [⟨1, "A", 3, 1, 0, 0⟩, ⟨2, "B", 6, 1, 0, 0⟩]
    (by simp) (by simp) (by decide) (by decide)
  exact ⟨by simp, by simp, by decide, by decide, h.1, h.2.1⟩

end Arkemy
